import Mathlib

/-!
# Verification of the Chactivity Exploration Memory Engine

A shallow embedding, in Lean 4, of the core of the Chactivity repository
(`app/base/core/activity_status_memory.py`, `app/base/core/xml_util.py`,
`app/base/base/util.py`, `app/base/device/commands/`), together with theorems
settling the specification claims about it.

Modelling conventions:
* Python `dict`s (insertion ordered) are modelled as association lists
  (`List (String × α)`) with Python's update-in-place / append-if-new
  semantics (`alSet`, `alSetdefault`).
* Python `float` weights are modelled as `ℚ`: every weight constant and every
  delta in the source is a small integer, so IEEE float arithmetic on the
  values that actually occur is exact and agrees with `ℚ`.
* Python exceptions (`KeyError`, failed asserts, `json` decode errors) are
  modelled with `Option`: a raising execution is `none`.
* In-place mutation of the lxml element tree is modelled by explicit state
  passing: each mutating pass takes the tree and returns the new tree.
* Python `set` iteration order (hash-randomized and thus unspecified) is
  modelled by a fixed order, noted at each use site; no claim in this file
  depends on the chosen order.
-/

set_option maxRecDepth 200000

namespace Chactivity

/-! ## Association lists: Python `dict` with insertion order -/

/-- `d.get(k)` / `d[k]` lookup: first binding of `k`. -/
def alGet {α : Type} : List (String × α) → String → Option α
  | [], _ => none
  | (k', v) :: rest, k => if k' = k then some v else alGet rest k

/-- `d[k] = v`: replace the first binding of `k` in place, else append. -/
def alSet {α : Type} : List (String × α) → String → α → List (String × α)
  | [], k, v => [(k, v)]
  | (k', v') :: rest, k, v =>
      if k' = k then (k', v) :: rest else (k', v') :: alSet rest k v

/-- `d.setdefault(k, dflt)`: returns the fetched value and the updated dict. -/
def alSetdefault {α : Type} (l : List (String × α)) (k : String) (dflt : α) :
    α × List (String × α) :=
  match alGet l k with
  | some v => (v, l)
  | none => (dflt, l ++ [(k, dflt)])

theorem alGet_alSet_self {α : Type} (l : List (String × α)) (k : String) (v : α) :
    alGet (alSet l k v) k = some v := by
  induction l with
  | nil => simp [alGet, alSet]
  | cons hd tl ih =>
      obtain ⟨k', v'⟩ := hd
      by_cases h : k' = k <;> simp [alGet, alSet, h, ih]

theorem alGet_alSet_ne {α : Type} (l : List (String × α)) (k k' : String) (v : α)
    (h : k' ≠ k) : alGet (alSet l k v) k' = alGet l k' := by
  have hk : k ≠ k' := fun h2 => h h2.symm
  induction l with
  | nil => simp [alGet, alSet, hk]
  | cons hd tl ih =>
      obtain ⟨k₀, v₀⟩ := hd
      by_cases h0 : k₀ = k
      · subst h0
        simp [alGet, alSet, hk]
      · simp [alGet, alSet, h0, ih]

/-! ## Weights (`activity_status_memory.py`, class `Weight`) -/

/-- Python `WeightType: TypeAlias = float`; modelled as `ℚ` (see header). -/
abbrev WeightType : Type := ℚ

namespace Weight

def DISABLED_FOREVER : WeightType := -990
def MIN : WeightType := 0
def MAX : WeightType := 100
def DEFAULT : WeightType := MAX
def EACH_ACTION : WeightType := -40
def EACH_NON_ACTION : WeightType := 15
def ENTER_CIRCLE : WeightType := -20
def EXIT_CIRCLE : WeightType := -40
def EACH_ACTION_ON_GLOBAL : WeightType := -50
def EACH_NON_ACTION_ON_GLOBAL : WeightType := 6

end Weight

def SPECIAL_WEIGHT_SKIP_CHECK : List WeightType := [Weight.DISABLED_FOREVER]

/-- A status-local weight table (`Status.element_weights`). -/
abbrev WTable : Type := List (String × WeightType)

/-- The `new_weight` computation of `Status.update_element_weight`
(activity_status_memory.py:246-253). -/
def newElementWeight (currentWeight : Option WeightType) (weight : WeightType) :
    WeightType :=
  if weight ∈ SPECIAL_WEIGHT_SKIP_CHECK then weight
  else
    match currentWeight with
    | some c => if c ∈ SPECIAL_WEIGHT_SKIP_CHECK then c
                else min Weight.MAX (max Weight.MIN weight)
    | none => min Weight.MAX (max Weight.MIN weight)

/-- `Status.update_element_weight` (activity_status_memory.py:246-258).
The debug print is ignored. -/
def updateElementWeight (ws : WTable) (xpath : String) (weight : WeightType) :
    WTable :=
  alSet ws xpath (newElementWeight (alGet ws xpath) weight)

/-- `Status.add_element_weight` (activity_status_memory.py:260-261).
`self.element_weights[xpath]` raises `KeyError` when absent, hence `Option`. -/
def addElementWeight (ws : WTable) (xpath : String) (weight : WeightType) :
    Option WTable :=
  (alGet ws xpath).map (fun c => updateElementWeight ws xpath (c + weight))

/-- `Status.get_weight` for an xpath argument (activity_status_memory.py:229-234):
a raw `dict` access, raising `KeyError` (= `none`) when the path is unknown. -/
def getWeightXpath (ws : WTable) (xpath : String) : Option WeightType :=
  alGet ws xpath

/-- `Status.single_ban_element` (activity_status_memory.py:318-322). -/
def singleBanElement (ws : WTable) (xpathOrCommand : String) : WTable :=
  updateElementWeight ws xpathOrCommand Weight.DISABLED_FOREVER

/-! ## Claim C4: the DISABLED_FOREVER sentinel is sticky -/

theorem newElementWeight_of_disabled (w : WeightType)
    (hw : w ≠ Weight.DISABLED_FOREVER) :
    newElementWeight (some Weight.DISABLED_FOREVER) w = Weight.DISABLED_FOREVER := by
  unfold newElementWeight
  rw [if_neg (by simpa [SPECIAL_WEIGHT_SKIP_CHECK] using hw)]
  simp [SPECIAL_WEIGHT_SKIP_CHECK]

theorem updateElementWeight_of_disabled (ws : WTable) (k : String) (w : WeightType)
    (hstored : alGet ws k = some Weight.DISABLED_FOREVER)
    (hw : w ≠ Weight.DISABLED_FOREVER) :
    alGet (updateElementWeight ws k w) k = some Weight.DISABLED_FOREVER := by
  unfold updateElementWeight
  rw [hstored, newElementWeight_of_disabled w hw]
  exact alGet_alSet_self ..

/-- C4: once a path's stored weight is `DISABLED_FOREVER`, an
`update_element_weight` with a non-sentinel value leaves it unchanged, and an
`add_element_weight` with any delta leaves it unchanged (its written value
`-990 + w` either is the sentinel itself, re-confirming it, or hits the
sticky rule). -/
theorem c4_disabled_forever_sticky (ws : WTable) (k : String) (w : WeightType)
    (hstored : alGet ws k = some Weight.DISABLED_FOREVER) :
    (w ≠ Weight.DISABLED_FOREVER →
      alGet (updateElementWeight ws k w) k = some Weight.DISABLED_FOREVER) ∧
    (∀ ws', addElementWeight ws k w = some ws' →
      alGet ws' k = some Weight.DISABLED_FOREVER) := by
  constructor
  · exact fun hw => updateElementWeight_of_disabled ws k w hstored hw
  · intro ws' hadd
    unfold addElementWeight at hadd
    rw [hstored] at hadd
    simp only [Option.map_some', Option.some_inj] at hadd
    subst hadd
    by_cases hz : Weight.DISABLED_FOREVER + w = Weight.DISABLED_FOREVER
    · rw [updateElementWeight, hz]
      have : newElementWeight (alGet ws k) Weight.DISABLED_FOREVER =
          Weight.DISABLED_FOREVER := by
        unfold newElementWeight
        simp [SPECIAL_WEIGHT_SKIP_CHECK]
      rw [this]
      exact alGet_alSet_self ..
    · exact updateElementWeight_of_disabled ws k _ hstored hz

/-- Witness for C4 at a concrete table. -/
theorem c4_disabled_forever_sticky_witness :
    alGet [("p", Weight.DISABLED_FOREVER)] "p" = some Weight.DISABLED_FOREVER ∧
    ((50 : WeightType) ≠ Weight.DISABLED_FOREVER →
      alGet (updateElementWeight [("p", Weight.DISABLED_FOREVER)] "p" 50) "p" =
        some Weight.DISABLED_FOREVER) ∧
    (∀ ws', addElementWeight [("p", Weight.DISABLED_FOREVER)] "p" 50 = some ws' →
      alGet ws' "p" = some Weight.DISABLED_FOREVER) := by
  refine ⟨by decide, ?_⟩
  exact c4_disabled_forever_sticky [("p", Weight.DISABLED_FOREVER)] "p" 50 (by decide)

/-! ## XML elements (lxml `_Element`, attribute-only trees)

Android UI hierarchy dumps carry all data in attributes; text/tail content is
always empty, so the model stores only tag, attributes and children. -/

inductive XmlNode : Type where
  | mk (tag : String) (attrs : List (String × String)) (children : List XmlNode)
deriving Repr

mutual

def XmlNode.beq : XmlNode → XmlNode → Bool
  | .mk t a c, .mk t' a' c' => t == t' && a == a' && XmlNode.beqList c c'

def XmlNode.beqList : List XmlNode → List XmlNode → Bool
  | [], [] => true
  | x :: xs, y :: ys => XmlNode.beq x y && XmlNode.beqList xs ys
  | _, _ => false

end

instance : BEq XmlNode := ⟨XmlNode.beq⟩

mutual

theorem XmlNode.beq_eq : ∀ a b : XmlNode, XmlNode.beq a b = true → a = b
  | .mk t a c, .mk t' a' c', h => by
      simp only [XmlNode.beq, Bool.and_eq_true, beq_iff_eq] at h
      obtain ⟨⟨ht, ha⟩, hc⟩ := h
      subst ht; subst ha
      rw [XmlNode.beqList_eq c c' hc]

theorem XmlNode.beqList_eq : ∀ l l' : List XmlNode, XmlNode.beqList l l' = true → l = l'
  | [], [], _ => rfl
  | x :: xs, y :: ys, h => by
      simp only [XmlNode.beqList, Bool.and_eq_true] at h
      rw [XmlNode.beq_eq x y h.1, XmlNode.beqList_eq xs ys h.2]

end

mutual

theorem XmlNode.beq_refl : ∀ a : XmlNode, XmlNode.beq a a = true
  | .mk t a c => by
      simp only [XmlNode.beq, Bool.and_eq_true, beq_self_eq_true, true_and]
      exact XmlNode.beqList_refl c

theorem XmlNode.beqList_refl : ∀ l : List XmlNode, XmlNode.beqList l l = true
  | [] => rfl
  | x :: xs => by
      simp only [XmlNode.beqList, Bool.and_eq_true]
      exact ⟨XmlNode.beq_refl x, XmlNode.beqList_refl xs⟩

end

instance : DecidableEq XmlNode := fun a b =>
  decidable_of_iff (XmlNode.beq a b = true)
    ⟨XmlNode.beq_eq a b, fun h => h ▸ XmlNode.beq_refl a⟩

def XmlNode.tag : XmlNode → String
  | .mk t _ _ => t

def XmlNode.attrs : XmlNode → List (String × String)
  | .mk _ a _ => a

def XmlNode.children : XmlNode → List XmlNode
  | .mk _ _ c => c

/-- `element.get(k)` (`None` when missing). -/
def XmlNode.getAttr (n : XmlNode) (k : String) : Option String :=
  alGet n.attrs k

/-- `element.get(k, dflt)`. -/
def XmlNode.getAttrD (n : XmlNode) (k dflt : String) : String :=
  (alGet n.attrs k).getD dflt

/-- `element.set(k, v)` / `element.attrib[k] = v`. -/
def XmlNode.setAttr (n : XmlNode) (k v : String) : XmlNode :=
  .mk n.tag (alSet n.attrs k v) n.children

def XmlNode.setChildren (n : XmlNode) (cs : List XmlNode) : XmlNode :=
  .mk n.tag n.attrs cs

/-- `util.true`: `x == "true"` (with `None` for a missing attribute). -/
def pyTrue (x : Option String) : Bool :=
  x = some "true"

/-- `Status._init_element_weights` (activity_status_memory.py:236-244): give
every key element's xpath the default weight, then the synthetic `"back"`
entry.  `element.attrib["xpath"]` raises (= `none`) when the attribute is
missing. -/
def initElementWeights (elems : List XmlNode) : Option WTable :=
  (elems.foldlM
    (fun (t : WTable) (e : XmlNode) =>
      (e.getAttr "xpath").map (fun x => updateElementWeight t x Weight.DEFAULT))
    ([] : WTable)).map
  (fun t => updateElementWeight t "back" Weight.DEFAULT)

/-! ## Claim C5: weight bounds under sentinel-free update sequences -/

/-- One call of the status-local weight API. -/
inductive WOp : Type where
  | update (xpath : String) (w : WeightType)
  | addW (xpath : String) (w : WeightType)
deriving DecidableEq, Repr

def applyWOp (t : WTable) : WOp → Option WTable
  | .update k w => some (updateElementWeight t k w)
  | .addW k w => addElementWeight t k w

def runWOps : WTable → List WOp → Option WTable
  | t, [] => some t
  | t, op :: ops => (applyWOp t op).bind (fun t' => runWOps t' ops)

/-- The value an operation hands to `update_element_weight` (for `addW` this is
`current + delta`, the value the source actually writes). -/
def writtenValue (t : WTable) : WOp → Option WeightType
  | .update _ w => some w
  | .addW k w => (alGet t k).map (· + w)

/-- No call in the sequence writes the `DISABLED_FOREVER` sentinel. -/
def noDisabledWrites : WTable → List WOp → Bool
  | _, [] => true
  | t, op :: ops =>
      decide (writtenValue t op ≠ some Weight.DISABLED_FOREVER) &&
      (applyWOp t op).elim true (fun t' => noDisabledWrites t' ops)

def weightInBounds (t : WTable) : Prop :=
  ∀ k w, alGet t k = some w → Weight.MIN ≤ w ∧ w ≤ Weight.MAX

theorem newElementWeight_bounds (cur : Option WeightType) (w : WeightType)
    (hcur : ∀ c, cur = some c → Weight.MIN ≤ c ∧ c ≤ Weight.MAX)
    (hw : w ≠ Weight.DISABLED_FOREVER) :
    Weight.MIN ≤ newElementWeight cur w ∧ newElementWeight cur w ≤ Weight.MAX := by
  have hclamp : Weight.MIN ≤ min Weight.MAX (max Weight.MIN w) ∧
      min Weight.MAX (max Weight.MIN w) ≤ Weight.MAX := by
    refine ⟨le_min (by norm_num [Weight.MIN, Weight.MAX]) (le_max_left _ _), min_le_left _ _⟩
  have hwne : ¬(w ∈ SPECIAL_WEIGHT_SKIP_CHECK) := by
    simpa [SPECIAL_WEIGHT_SKIP_CHECK] using hw
  cases cur with
  | none => simpa [newElementWeight, hwne] using hclamp
  | some c =>
      have hc := hcur c rfl
      have hcne : ¬(c ∈ SPECIAL_WEIGHT_SKIP_CHECK) := by
        simp only [SPECIAL_WEIGHT_SKIP_CHECK, List.mem_singleton]
        intro hceq
        rw [hceq] at hc
        exact absurd hc.1 (by norm_num [Weight.MIN, Weight.DISABLED_FOREVER])
      simpa [newElementWeight, hwne, hcne] using hclamp

theorem updateElementWeight_bounds (t : WTable) (k : String) (w : WeightType)
    (ht : weightInBounds t) (hw : w ≠ Weight.DISABLED_FOREVER) :
    weightInBounds (updateElementWeight t k w) := by
  intro k' w' hget
  unfold updateElementWeight at hget
  by_cases hk : k' = k
  · subst hk
    rw [alGet_alSet_self] at hget
    simp only [Option.some_inj] at hget
    subst hget
    exact newElementWeight_bounds (alGet t k') w (fun c hc => ht k' c hc) hw
  · rw [alGet_alSet_ne _ _ _ _ hk] at hget
    exact ht k' w' hget

theorem updateElementWeight_default (t : WTable) (k : String)
    (ht : ∀ k0 w0, alGet t k0 = some w0 → w0 = Weight.DEFAULT) :
    ∀ k0 w0, alGet (updateElementWeight t k Weight.DEFAULT) k0 = some w0 →
      w0 = Weight.DEFAULT := by
  intro k0 w0 hget
  unfold updateElementWeight at hget
  by_cases hk : k0 = k
  · subst hk
    rw [alGet_alSet_self] at hget
    simp only [Option.some_inj] at hget
    subst hget
    unfold newElementWeight
    cases hcur : alGet t k0 with
    | none => norm_num [SPECIAL_WEIGHT_SKIP_CHECK, Weight.DEFAULT, Weight.MAX,
        Weight.MIN, Weight.DISABLED_FOREVER]
    | some c =>
        have := ht k0 c hcur
        subst this
        norm_num [SPECIAL_WEIGHT_SKIP_CHECK, Weight.DEFAULT, Weight.MAX,
          Weight.MIN, Weight.DISABLED_FOREVER]
  · rw [alGet_alSet_ne _ _ _ _ hk] at hget
    exact ht k0 w0 hget

theorem initElementWeights_default (elems : List XmlNode) (t : WTable)
    (h : initElementWeights elems = some t) :
    ∀ k w, alGet t k = some w → w = Weight.DEFAULT := by
  have main : ∀ (l : List XmlNode) (t0 t1 : WTable),
      (∀ k w, alGet t0 k = some w → w = Weight.DEFAULT) →
      l.foldlM (fun t e => (e.getAttr "xpath").map
        (fun x => updateElementWeight t x Weight.DEFAULT)) t0 = some t1 →
      ∀ k w, alGet t1 k = some w → w = Weight.DEFAULT := by
    intro l
    induction l with
    | nil =>
        intro t0 t1 h0 hfold
        simp only [List.foldlM, pure, Option.some_inj] at hfold
        subst hfold
        exact h0
    | cons e rest ih =>
        intro t0 t1 h0 hfold
        simp only [List.foldlM] at hfold
        cases hx : XmlNode.getAttr e "xpath" with
        | none => rw [hx] at hfold; simp [Option.map, bind] at hfold
        | some x =>
            rw [hx] at hfold
            simp only [Option.map_some', Option.some_bind] at hfold
            exact ih (updateElementWeight t0 x Weight.DEFAULT) t1
              (updateElementWeight_default t0 x h0) hfold
  unfold initElementWeights at h
  cases hfold : List.foldlM (fun t e => (e.getAttr "xpath").map
      (fun x => updateElementWeight t x Weight.DEFAULT)) ([] : WTable) elems with
  | none => rw [hfold] at h; simp at h
  | some t1 =>
      rw [hfold] at h
      simp only [Option.map_some', Option.some_inj] at h
      subst h
      exact updateElementWeight_default t1 "back"
        (main elems [] t1 (by intro k w hc; simp [alGet] at hc) hfold)

/-- C5: starting from a freshly initialized weight table (all entries at the
default 100), any sequence of `add_element_weight` / `update_element_weight`
calls none of which writes `DISABLED_FOREVER` leaves every stored weight in
`[0, 100]`. -/
theorem c5_weights_bounded (elems : List XmlNode) (ops : List WOp) (t0 t : WTable)
    (hinit : initElementWeights elems = some t0)
    (hnd : noDisabledWrites t0 ops = true)
    (hrun : runWOps t0 ops = some t) :
    ∀ k w, alGet t k = some w → Weight.MIN ≤ w ∧ w ≤ Weight.MAX := by
  have h0 : weightInBounds t0 := by
    intro k w hget
    have := initElementWeights_default elems t0 hinit k w hget
    subst this
    norm_num [Weight.DEFAULT, Weight.MAX, Weight.MIN]
  clear hinit
  induction ops generalizing t0 with
  | nil =>
      simp only [runWOps, Option.some_inj] at hrun
      subst hrun
      exact h0
  | cons op rest ih =>
      simp only [runWOps] at hrun
      cases happ : applyWOp t0 op with
      | none => rw [happ] at hrun; simp at hrun
      | some t1 =>
          rw [happ] at hrun
          simp only [Option.some_bind] at hrun
          simp only [noDisabledWrites, happ, Option.elim, Bool.and_eq_true,
            decide_eq_true_eq] at hnd
          refine ih t1 hnd.2 hrun ?_
          cases op with
          | update k w =>
              simp only [applyWOp, Option.some_inj] at happ
              subst happ
              apply updateElementWeight_bounds t0 k w h0
              intro hweq
              exact hnd.1 (by simp [writtenValue, hweq])
          | addW k w =>
              simp only [applyWOp, addElementWeight] at happ
              cases hcur : alGet t0 k with
              | none => rw [hcur] at happ; simp at happ
              | some c =>
                  rw [hcur] at happ
                  simp only [Option.map_some', Option.some_inj] at happ
                  subst happ
                  apply updateElementWeight_bounds t0 k (c + w) h0
                  intro hweq
                  exact hnd.1 (by simp [writtenValue, hcur, hweq])

/-- Witness for C5 on a concrete element list and op sequence (an update that
clamps above and an add that clamps below). -/
theorem c5_weights_bounded_witness :
    initElementWeights [] = some [("back", Weight.DEFAULT)] ∧
    (∀ k w,
      alGet [("back", (100 : WeightType)), ("a", 0)] k = some w →
        Weight.MIN ≤ w ∧ w ≤ Weight.MAX) := by
  constructor
  · decide
  · exact c5_weights_bounded [] [WOp.update "a" 150, WOp.update "a" (-5)]
      [("back", Weight.DEFAULT)] [("back", 100), ("a", 0)]
      (by decide) (by decide) (by decide)

/-! ## String utilities (`app/base/base/util.py`)

Character-list implementations are used instead of the core `String`
primitives (`trim`, `splitOn`, `startsWith`, `contains`), which do not reduce
inside the kernel. -/

def pyWhitespace : List Char := [' ', '\t', '\n', '\r', Char.ofNat 11, Char.ofNat 12]

/-- Python `str.strip()` (ASCII whitespace; no other whitespace occurs here). -/
def pyStrip (s : String) : String :=
  String.mk
    (((s.data.dropWhile (fun c => c ∈ pyWhitespace)).reverse.dropWhile
      (fun c => c ∈ pyWhitespace)).reverse)

def charsStartsWith : List Char → List Char → Bool
  | _, [] => true
  | [], _ :: _ => false
  | c :: cs, p :: ps => c = p && charsStartsWith cs ps

/-- `s.startswith(p)`. -/
def strStartsWith (s p : String) : Bool :=
  charsStartsWith s.data p.data

def splitCharList (sep : Char) : List Char → List (List Char)
  | [] => [[]]
  | c :: cs =>
      let r := splitCharList sep cs
      if c = sep then [] :: r
      else
        match r with
        | [] => [[c]]
        | h :: t => (c :: h) :: t

/-- Python `s.split(sep)` for a one-character separator (keeps empty parts). -/
def strSplitChar (s : String) (sep : Char) : List String :=
  (splitCharList sep s.data).map String.mk

/-- `str.isprintable` per character, modelled exactly on the ASCII and Latin-1
control ranges (C0 controls, DEL, C1 controls are not printable; everything
else is).  Characters outside these ranges that Python would also reject
(Unicode separators/other) do not occur in this development. -/
def isPyPrintable (c : Char) : Bool :=
  0x20 ≤ c.toNat && c.toNat ≠ 0x7F && ¬(0x80 ≤ c.toNat && c.toNat ≤ 0x9F)

/-- `util.make_str_printable`. -/
def makeStrPrintable (s : String) : String :=
  String.mk (s.data.filter isPyPrintable)

def dedupKeepFirst (seen : List String) : List String → List String
  | [] => []
  | x :: xs =>
      if x ∈ seen then dedupKeepFirst seen xs
      else x :: dedupKeepFirst (x :: seen) xs

/-- `util.make_list_unique`: `list(dict.fromkeys(l))`, order preserving. -/
def makeListUnique (l : List String) : List String :=
  dedupKeepFirst [] l

/-- `util.make_list_unique_and_printable`. -/
def makeListUniqueAndPrintable (l : List String) : List String :=
  (makeListUnique (l.map makeStrPrintable)).filter (fun i => i ≠ "")

/-- `util.is_str_contentful`. -/
def isStrContentful : Option String → Bool
  | none => false
  | some s => ¬(pyStrip s = "")

/-- `util.make_short_resource_id`: drop everything up to the first `/`
(`res_id.split("/", 1)[-1]`). -/
def makeShortResourceId (resId : Option String) : String :=
  match resId with
  | none => ""
  | some s =>
      if s = "" then ""
      else
        match strSplitChar s '/' with
        | [] => s
        | _ :: tl => if tl = [] then s else String.intercalate "/" tl

/-- `util.concat_strings` for exactly two parts (the only arity the source
asserts and uses). -/
def concatStrings (a b : Option String) (middle : String) : String :=
  let contents := ([a, b].filterMap id).filter (fun s => s ≠ "")
  if h : contents.length = 1 then contents.head (by
    intro hnil
    rw [hnil] at h
    simp at h)
  else
    String.intercalate middle
      ((([a, b].filterMap id).filter (fun s => s ≠ "")).map
        (fun i => "\"" ++ i ++ "\""))

/-- `xml_util.filter_xpath_remove_index`: for each `/`-separated part, keep the
text before the first `[`; a part without `[` loses its final character, since
Python's `i[:i.find("[")]` slices with `find = -1`. -/
def filterXpathRemoveIndex (xpath : String) : String :=
  String.intercalate "/" ((strSplitChar xpath '/').map
    (fun p =>
      if p.data.contains '[' then String.mk (p.data.takeWhile (fun c => c ≠ '['))
      else String.mk (p.data.take (p.data.length - 1))))

/-- `util.get_full_activity_name`. -/
def getFullActivityName (packageName activityName : String) : String :=
  if strStartsWith activityName "." then packageName ++ activityName else activityName

/-! ## JSON string lists (`json.dumps` / `json.loads` on `List[str]`)

The engine serializes only lists of strings into the `child_texts` /
`near_texts` attributes; the parser accepts exactly the JSON string-list
grammar (other JSON values make the Python code crash later, which the
`Option` result also captures). -/

def hexDigitChar (n : Nat) : Char :=
  if n < 10 then Char.ofNat (48 + n) else Char.ofNat (97 + (n - 10))

def toHex4 (n : Nat) : String :=
  String.mk [hexDigitChar (n / 4096 % 16), hexDigitChar (n / 256 % 16),
    hexDigitChar (n / 16 % 16), hexDigitChar (n % 16)]

def toHex2 (n : Nat) : String :=
  String.mk [hexDigitChar (n / 16 % 16), hexDigitChar (n % 16)]

/-- One character under `json.dumps` (default `ensure_ascii=True`). -/
def jsonEscapeChar (c : Char) : String :=
  if c = '"' then "\\\""
  else if c = '\\' then "\\\\"
  else if c = '\n' then "\\n"
  else if c = '\t' then "\\t"
  else if c = '\r' then "\\r"
  else if c.toNat = 8 then "\\b"
  else if c.toNat = 12 then "\\f"
  else if c.toNat < 0x20 then "\\u" ++ toHex4 c.toNat
  else if c.toNat < 0x7F then String.singleton c
  else if c.toNat < 0x10000 then "\\u" ++ toHex4 c.toNat
  else
    "\\u" ++ toHex4 (0xD800 + (c.toNat - 0x10000) / 0x400) ++
    "\\u" ++ toHex4 (0xDC00 + (c.toNat - 0x10000) % 0x400)

def jsonEscape (s : String) : String :=
  String.join (s.data.map jsonEscapeChar)

/-- `json.dumps` of a list of strings. -/
def jsonDumpsStrList (l : List String) : String :=
  "[" ++ String.intercalate ", " (l.map (fun s => "\"" ++ jsonEscape s ++ "\"")) ++ "]"

def jsonWs : List Char := [' ', '\n', '\t', '\r']

/-- Parse the body of a JSON string (opening quote already consumed); fuel is
consumed one character at a time so the definition reduces in the kernel. -/
def parseJStringAux : Nat → List Char → Option (List Char × List Char)
  | 0, _ => none
  | _ + 1, [] => none
  | fuel + 1, c :: rest =>
      if c = '"' then some ([], rest)
      else if c = '\\' then
        match rest with
        | [] => none
        | e :: rest2 =>
            if e = 'u' then
              match rest2 with
              | h1 :: h2 :: h3 :: h4 :: rest3 =>
                  match [h1, h2, h3, h4].mapM (fun h => hexCharVal h) with
                  | some ds =>
                      (parseJStringAux fuel rest3).map
                        (fun (s, r) =>
                          (Char.ofNat (ds.foldl (fun a d => a * 16 + d) 0) :: s, r))
                  | none => none
              | _ => none
            else
              match jsonUnescape e with
              | some c' => (parseJStringAux fuel rest2).map (fun (s, r) => (c' :: s, r))
              | none => none
      else (parseJStringAux fuel rest).map (fun (s, r) => (c :: s, r))
where
  hexCharVal (h : Char) : Option Nat :=
    if 48 ≤ h.toNat ∧ h.toNat ≤ 57 then some (h.toNat - 48)
    else if 97 ≤ h.toNat ∧ h.toNat ≤ 102 then some (h.toNat - 87)
    else if 65 ≤ h.toNat ∧ h.toNat ≤ 70 then some (h.toNat - 55)
    else none
  jsonUnescape (e : Char) : Option Char :=
    if e = '"' ∨ e = '\\' ∨ e = '/' then some e
    else if e = 'n' then some '\n'
    else if e = 't' then some '\t'
    else if e = 'r' then some '\r'
    else if e = 'b' then some (Char.ofNat 8)
    else if e = 'f' then some (Char.ofNat 12)
    else none

/-- Parse the items of a JSON string list after `[`. -/
def parseJItems : Nat → List Char → Option (List String × List Char)
  | 0, _ => none
  | _ + 1, cs =>
      match cs.dropWhile (fun c => c ∈ jsonWs) with
      | ']' :: rest => some ([], rest)
      | _ => none

def parseJItemsCore : Nat → List Char → Option (List String × List Char)
  | 0, _ => none
  | fuel + 1, cs =>
      match cs.dropWhile (fun c => c ∈ jsonWs) with
      | '"' :: rest =>
          match parseJStringAux (rest.length + 1) rest with
          | none => none
          | some (s, rest2) =>
              match rest2.dropWhile (fun c => c ∈ jsonWs) with
              | ',' :: rest3 =>
                  (parseJItemsCore fuel rest3).map
                    (fun (l, r) => (String.mk s :: l, r))
              | ']' :: rest3 => some ([String.mk s], rest3)
              | _ => none
      | _ => none

/-- `json.loads` restricted to lists of strings. -/
def jsonLoadsStrList (s : String) : Option (List String) :=
  match (s.data.dropWhile (fun c => c ∈ jsonWs)) with
  | '[' :: rest =>
      match rest.dropWhile (fun c => c ∈ jsonWs) with
      | ']' :: tail =>
          if tail.dropWhile (fun c => c ∈ jsonWs) = [] then some [] else none
      | _ =>
          match parseJItemsCore (rest.length + 1) rest with
          | some (l, tail) =>
              if tail.dropWhile (fun c => c ∈ jsonWs) = [] then some l else none
          | none => none
  | _ => none

/-! ## Python `repr` of string lists (used by the f-string at
`xml_util.py:389`) -/

def pySingleQuote : Char := Char.ofNat 39

/-- `repr` of one character inside a quoted Python string literal (`q` is the
chosen quote).  Non-ASCII printable characters pass through, as in Python. -/
def pyCharRepr (q c : Char) : String :=
  if c = '\\' then "\\\\"
  else if c = q then "\\" ++ String.singleton q
  else if c = '\n' then "\\n"
  else if c = '\r' then "\\r"
  else if c = '\t' then "\\t"
  else if c.toNat < 0x20 ∨ c.toNat = 0x7F then "\\x" ++ toHex2 c.toNat
  else String.singleton c

/-- Python `repr` of a string: single quotes unless the string contains a
single quote and no double quote. -/
def pyStrRepr (s : String) : String :=
  let q := if s.data.contains pySingleQuote ∧ ¬(s.data.contains '"') then '"' else pySingleQuote
  String.singleton q ++ String.join (s.data.map (pyCharRepr q)) ++ String.singleton q

/-- Python `str` of a list of strings, e.g. `['a', 'b']`. -/
def pyListRepr (l : List String) : String :=
  "[" ++ String.intercalate ", " (l.map pyStrRepr) ++ "]"

/-! ## Constants (`app/base/base/const.py`)

Python `set` literals are modelled as lists in the order written in the
source; no claim depends on set iteration order (noted per use site). -/

def TEXT_VIEW : List String :=
  ["android.widget.EditText", "android.widget.AutoCompleteTextView",
   "android.widget.MultiAutoCompleteTextView",
   "android.inputmethodservice.ExtractEditText"]

def PASS_DOWN_ATTRIBUTES : List String := ["clickable", "long-clickable", "scrollable"]

def MUST_DIFFERENT_ATTRIBUTES : List String := ["index", "bounds"]

def TEXT_ATTRIBUTES : List String := ["text", "content-desc"]

def ALL_ATTRIBUTES : List String :=
  ["index", "package", "class", "text", "resource-id", "checkable", "checked",
   "clickable", "enabled", "focusable", "focused", "long-clickable", "password",
   "scrollable", "selected", "bounds", "displayed"]

def OVERRIDE_CHILD_TEXT_CLASSES : List String := ["TextInputLayout"]

/-! ## Commands (`app/base/device/commands/`) -/

/-- `element.get("class") in TEXT_VIEW` (`None` is never in the set). -/
def classInTextView (n : XmlNode) : Bool :=
  match n.getAttr "class" with
  | some c => c ∈ TEXT_VIEW
  | none => false

/-- `xml_util.is_element_inputable`: class in `TEXT_VIEW`. -/
def isElementInputable (n : XmlNode) : Bool :=
  classInTextView n

/-- `get_available_commands_for_xml_element` (commands/__init__.py): the
per-element prompt descriptions of the registered commands that can act on an
element, in registration order (click, input, submit, scroll; the global
commands back/sleep/monkey have `perform_on_element = False`). -/
def getAvailableCommands (n : XmlNode) : List String :=
  (if pyTrue (n.getAttr "clickable") then ["click"] else []) ++
  (if isElementInputable n then ["input"] else []) ++
  (if classInTextView n then ["submit"] else []) ++
  (if pyTrue (n.getAttr "scrollable") then ["scroll"] else [])

/-- `CommandManager.all_command_list` names, in registration order
(commands/__init__.py import order). -/
def allCommandNames : List String :=
  ["click", "back", "input", "submit", "scroll", "sleep", "monkey"]

/-! ## Element description builder (`xml_util.py`) -/

/-- The `TEXT_ATTRIBUTES` loop of `make_element_description_list`
(xml_util.py:361-366). -/
def mkdlTextPart (element : XmlNode) (ignoreTextForInputable : Bool) : List String :=
  TEXT_ATTRIBUTES.foldl
    (fun acc attr =>
      if isStrContentful (element.getAttr attr) then
        if ignoreTextForInputable && attr == "text" && isElementInputable element then acc
        else acc ++ [(element.getAttr attr).getD ""]
      else acc)
    []

/-- The `child_texts` / `near_texts` loop of `make_element_description_list`
(xml_util.py:374-390). -/
def mkdlJsonPart (element : XmlNode) (noWrapChildTexts noNearTexts : Bool) :
    List (String × String) → List String → Option (List String)
  | [], contentList => some contentList
  | (k, v) :: rest, contentList =>
      if noNearTexts && k == "near_texts" then
        mkdlJsonPart element noWrapChildTexts noNearTexts rest contentList
      else
        match element.getAttr k with
        | none => mkdlJsonPart element noWrapChildTexts noNearTexts rest contentList
        | some val =>
            if val = "" ∨ val = "[]" then
              mkdlJsonPart element noWrapChildTexts noNearTexts rest contentList
            else
              match jsonLoadsStrList val with
              | none => none
              | some lst0 =>
                  let lst1 := makeListUniqueAndPrintable
                    (lst0.map (fun i => String.mk (i.data.take 100)))
                  let lst2 := lst1.filter (fun i => i ∉ contentList)
                  if lst2 = [] then
                    mkdlJsonPart element noWrapChildTexts noNearTexts rest contentList
                  else if noWrapChildTexts && k == "child_texts" then
                    mkdlJsonPart element noWrapChildTexts noNearTexts rest
                      (contentList ++ lst2)
                  else
                    mkdlJsonPart element noWrapChildTexts noNearTexts rest
                      (contentList ++
                        [v ++ ": " ++ pyListRepr (lst2.filter (fun i => i ∉ contentList))])

/-- `make_element_description_list` (xml_util.py:345-397).  The
`lru_cache` is pure memoization and is not modelled.  `NO_TEXT` entries are
never pushed (that branch is commented out in the source); only the final
removal remains. -/
def makeElementDescriptionList (element : XmlNode)
    (ignoreCommonAttrs noWrapChildTexts ignoreTextForInputable noNearTexts : Bool) :
    Option (List String) :=
  let base := mkdlTextPart element ignoreTextForInputable
  let base :=
    match element.getAttr "resource-id" with
    | some r =>
        if r ≠ "" then base ++ ["resource_id: " ++ makeShortResourceId (some r)]
        else base
    | none => base
  (mkdlJsonPart element noWrapChildTexts noNearTexts
      [("child_texts", "child texts"), ("near_texts", "near texts")] base).map
    (fun lst =>
      let lst := makeListUniqueAndPrintable lst
      if ignoreCommonAttrs then
        if "(no text)" ∈ lst then lst.erase "(no text)" else lst
      else lst)

/-- `xml_util.merge_text_parts`. -/
def mergeTextParts (strings : List String) : String :=
  String.intercalate ", "
    ((strings.filter (fun i => i ≠ "")).map (fun i => "\"" ++ i ++ "\""))

/-- `make_element_description` (xml_util.py:400-433); the stub-element check
is irrelevant here (the model never builds the stub). -/
def makeElementDescription (element : XmlNode)
    (ignoreCommonAttrs directTextOnly ignoreTextForInputable : Bool) :
    Option String :=
  (makeElementDescriptionList element ignoreCommonAttrs false ignoreTextForInputable
      false).map
    (fun contentList =>
      let contentList := contentList.filter (fun i => i ≠ "")
      if directTextOnly then contentList.headD "an element without text"
      else mergeTextParts contentList)

/-! ## SHA-256 (`util.sha256`, util.py:150-156: UTF-8 encode, hash,
lowercase hex digest)

FIPS 180-4 over `Nat`, every function structurally recursive and therefore
kernel-reducible; validated against the standard test vectors. -/

namespace SHA256

def mask32 (n : Nat) : Nat := n % 4294967296

def rotr32 (x n : Nat) : Nat := mask32 (x >>> n ||| x <<< (32 - n))

def chFn (e f g : Nat) : Nat := (e &&& f) ^^^ ((e ^^^ 4294967295) &&& g)

def majFn (a b c : Nat) : Nat := (a &&& b) ||| (c &&& (a ||| b))

def sum0 (a : Nat) : Nat := rotr32 a 2 ^^^ rotr32 a 13 ^^^ rotr32 a 22

def sum1 (e : Nat) : Nat := rotr32 e 6 ^^^ rotr32 e 11 ^^^ rotr32 e 25

def sig0 (x : Nat) : Nat := rotr32 x 7 ^^^ rotr32 x 18 ^^^ x >>> 3

def sig1 (x : Nat) : Nat := rotr32 x 17 ^^^ rotr32 x 19 ^^^ x >>> 10

def roundK : List Nat :=
  [1116352408, 1899447441, 3049323471, 3921009573, 961987163, 1508970993,
   2453635748, 2870763221, 3624381080, 310598401, 607225278, 1426881987,
   1925078388, 2162078206, 2614888103, 3248222580, 3835390401, 4022224774,
   264347078, 604807628, 770255983, 1249150122, 1555081692, 1996064986,
   2554220882, 2821834349, 2952996808, 3210313671, 3336571891, 3584528711,
   113926993, 338241895, 666307205, 773529912, 1294757372, 1396182291,
   1695183700, 1986661051, 2177026350, 2456956037, 2730485921, 2820302411,
   3259730800, 3345764771, 3516065817, 3600352804, 4094571909, 275423344,
   430227734, 506948616, 659060556, 883997877, 958139571, 1322822218,
   1537002063, 1747873779, 1955562222, 2024104815, 2227730452, 2361852424,
   2428436474, 2756734187, 3204031479, 3329325298]

def iv : List Nat :=
  [1779033703, 3144134277, 1013904242, 2773480762,
   1359893119, 2600822924, 528734635, 1541459225]

structure Regs : Type where
  a : Nat
  b : Nat
  c : Nat
  d : Nat
  e : Nat
  f : Nat
  g : Nat
  h : Nat

def step (r : Regs) (kw : Nat × Nat) : Regs :=
  let t1 := mask32 (r.h + sum1 r.e + chFn r.e r.f r.g + kw.1 + kw.2)
  let t2 := mask32 (sum0 r.a + majFn r.a r.b r.c)
  { a := mask32 (t1 + t2), b := r.a, c := r.b, d := r.c,
    e := mask32 (r.d + t1), f := r.e, g := r.f, h := r.g }

def schedule : Nat → List Nat → List Nat
  | 0, ws => ws
  | fuel + 1, ws =>
      let k := ws.length
      let x := mask32 (ws.getD (k - 16) 0 + sig0 (ws.getD (k - 15) 0) +
        ws.getD (k - 7) 0 + sig1 (ws.getD (k - 2) 0))
      schedule fuel (ws ++ [x])

def compress (hs : List Nat) (block : List Nat) : List Nat :=
  match hs with
  | [a0, b0, c0, d0, e0, f0, g0, h0] =>
      let ws := schedule 48 block
      let r := (roundK.zip ws).foldl step ⟨a0, b0, c0, d0, e0, f0, g0, h0⟩
      [mask32 (a0 + r.a), mask32 (b0 + r.b), mask32 (c0 + r.c),
       mask32 (d0 + r.d), mask32 (e0 + r.e), mask32 (f0 + r.f),
       mask32 (g0 + r.g), mask32 (h0 + r.h)]
  | _ => hs

def chunks16 : Nat → List Nat → List (List Nat)
  | 0, _ => []
  | fuel + 1, ws =>
      if ws.length < 16 then [] else ws.take 16 :: chunks16 fuel (ws.drop 16)

def digestWords (ws : List Nat) : List Nat :=
  (chunks16 ws.length ws).foldl compress iv

def lengthTail (len : Nat) : List Nat :=
  let bits := len * 8
  [bits >>> 56 &&& 255, bits >>> 48 &&& 255, bits >>> 40 &&& 255,
   bits >>> 32 &&& 255, bits >>> 24 &&& 255, bits >>> 16 &&& 255,
   bits >>> 8 &&& 255, bits &&& 255]

def padMessage (msg : List Nat) : List Nat :=
  let z := (119 - msg.length % 64) % 64
  msg ++ 128 :: (List.replicate z 0 ++ lengthTail msg.length)

def packWords : List Nat → List Nat
  | b0 :: b1 :: b2 :: b3 :: rest =>
      (b0 <<< 24 ||| b1 <<< 16 ||| b2 <<< 8 ||| b3) :: packWords rest
  | _ => []

def utf8Bytes (c : Char) : List Nat :=
  let u := c.toNat
  if u ≤ 127 then [u]
  else if u ≤ 2047 then [192 ||| u >>> 6, 128 ||| u &&& 63]
  else if u ≤ 65535 then
    [224 ||| u >>> 12, 128 ||| u >>> 6 &&& 63, 128 ||| u &&& 63]
  else
    [240 ||| u >>> 18, 128 ||| u >>> 12 &&& 63, 128 ||| u >>> 6 &&& 63,
     128 ||| u &&& 63]

def encodeUtf8 (s : String) : List Nat := s.data.flatMap utf8Bytes

def nibbles : Nat → Nat → List Nat
  | 0, _ => []
  | k + 1, n => nibbles k (n >>> 4) ++ [n &&& 15]

def hex8 (n : Nat) : String := String.mk ((nibbles 8 n).map hexDigitChar)

end SHA256

def sha256Hex (s : String) : String :=
  String.join ((SHA256.digestWords (SHA256.packWords (SHA256.padMessage
    (SHA256.encodeUtf8 s)))).map SHA256.hex8)


/-! ## Serialization (`etree.tostring(tree, encoding="unicode")`) -/

/-- libxml2 attribute-value escaping. -/
def escAttrChar (c : Char) : String :=
  if c = '&' then "&amp;"
  else if c = '<' then "&lt;"
  else if c = '>' then "&gt;"
  else if c = '"' then "&quot;"
  else if c = '\n' then "&#10;"
  else if c = '\t' then "&#9;"
  else if c = '\r' then "&#13;"
  else String.singleton c

def escAttr (s : String) : String :=
  String.join (s.data.map escAttrChar)

mutual

/-- `etree.tostring` for attribute-only element trees (no text/tail nodes, as
in Android UI dumps): `<tag k="v" .../>` or `<tag ...>children</tag>`. -/
def serNode : XmlNode → String
  | .mk t a c =>
      "<" ++ t ++
        String.join (a.map (fun p => " " ++ p.1 ++ "=\"" ++ escAttr p.2 ++ "\"")) ++
        (match c with
         | [] => "/>"
         | _ => ">" ++ serList c ++ "</" ++ t ++ ">")

def serList : List XmlNode → String
  | [] => ""
  | x :: xs => serNode x ++ serList xs

end

/-- `xml_util.get_xml_hash`. -/
def getXmlHash (xmlTree : XmlNode) : String :=
  sha256Hex (serNode xmlTree)

mutual

/-- `xml_util.remove_attr_on_every_element` (on a fresh copy): blank every
listed attribute that is present (the `str` default value is `""`). -/
def removeAttrNode (attrsToRemove : List String) : XmlNode → XmlNode
  | .mk t a c =>
      .mk t (a.map (fun p => if p.1 ∈ attrsToRemove then (p.1, "") else p))
        (removeAttrList attrsToRemove c)

def removeAttrList (attrsToRemove : List String) : List XmlNode → List XmlNode
  | [] => []
  | x :: xs => removeAttrNode attrsToRemove x :: removeAttrList attrsToRemove xs

end

/-! ## Status levels and hashing (`activity_status_memory.py`) -/

inductive StatusLevel : Type where
  | TEXT
  | ATTRIBUTE_IGNORE_TEXT
  | ATTRIBUTE_IGNORE_TEXT_AND_DESC
  | LAYOUT_IGNORE_ATTRIBUTE
  | ACTIVITY_IGNORE_LAYOUT
  | PACKAGE
deriving DecidableEq, Repr

/-- The `IntEnum` value of each level. -/
def StatusLevel.val : StatusLevel → Nat
  | .TEXT => 0
  | .ATTRIBUTE_IGNORE_TEXT => 1
  | .ATTRIBUTE_IGNORE_TEXT_AND_DESC => 2
  | .LAYOUT_IGNORE_ATTRIBUTE => 3
  | .ACTIVITY_IGNORE_LAYOUT => 4
  | .PACKAGE => 5

/-- The identity of the owning Activity, as far as hashing needs it. -/
structure ActivityInfo : Type where
  packageName : String
  activityName : String
deriving DecidableEq, Repr

/-- `Status.calc_hash` (activity_status_memory.py:126-163). The two asserts
(`activity is not None`) are `none` on violation.  `str(status_level)` is the
decimal value string: the repository requires Python ≥ 3.11 (`typing.Self`,
`StrEnum`), where `IntEnum.__str__` is `int.__str__`. -/
def calcHash (xmlTree : XmlNode) (statusLevel : StatusLevel)
    (activity : Option ActivityInfo) : Option String :=
  (match statusLevel with
   | .TEXT => some (getXmlHash xmlTree)
   | .ATTRIBUTE_IGNORE_TEXT =>
       some (getXmlHash (removeAttrNode ("text" :: MUST_DIFFERENT_ATTRIBUTES) xmlTree))
   | .ATTRIBUTE_IGNORE_TEXT_AND_DESC =>
       some (getXmlHash
         (removeAttrNode (TEXT_ATTRIBUTES ++ MUST_DIFFERENT_ATTRIBUTES) xmlTree))
   | .LAYOUT_IGNORE_ATTRIBUTE =>
       some (getXmlHash (removeAttrNode ALL_ATTRIBUTES xmlTree))
   | .ACTIVITY_IGNORE_LAYOUT => activity.map (fun (i : ActivityInfo) => i.activityName)
   | .PACKAGE => activity.map (fun (i : ActivityInfo) => i.packageName)).map
  (fun h => toString statusLevel.val ++ h)

/-! ## Claim C6: level-prefix collision freedom -/

theorem string_append_head_ne (s t : String) (c d : Char)
    (hs : s.data = [c]) (ht : t.data = [d]) (hcd : c ≠ d) (b1 b2 : String) :
    s ++ b1 ≠ t ++ b2 := by
  intro h
  have h2 := congrArg String.data h
  rw [String.data_append, String.data_append, hs, ht] at h2
  simp only [List.cons_append, List.nil_append, List.cons.injEq] at h2
  exact hcd h2.1

theorem digitRepr (m : Nat) (hm : m < 10) :
    (toString m).data = [Char.ofNat (48 + m)] := by
  interval_cases m <;> rfl

theorem digit_append_ne (m n : Nat) (hm : m < 10) (hn : n < 10) (hmn : m ≠ n)
    (b1 b2 : String) : toString m ++ b1 ≠ toString n ++ b2 := by
  apply string_append_head_ne _ _ _ _ (digitRepr m hm) (digitRepr n hn) _ b1 b2
  intro hc
  apply hmn
  interval_cases m <;> interval_cases n <;>
    first
    | rfl
    | exact absurd hc (by decide)

theorem statusLevelVal_inj (l1 l2 : StatusLevel) (h : l1.val = l2.val) :
    l1 = l2 := by
  cases l1 <;> cases l2 <;> first | rfl | exact absurd h (by decide)

theorem calcHash_shape (t : XmlNode) (l : StatusLevel) (a : Option ActivityInfo)
    (h : String) (hcalc : calcHash t l a = some h) :
    ∃ b, h = toString l.val ++ b := by
  cases l <;>
    simp only [calcHash, Option.map_some', Option.map_eq_some', Option.some_inj]
      at hcalc
  case TEXT => exact ⟨_, hcalc.symm⟩
  case ATTRIBUTE_IGNORE_TEXT => exact ⟨_, hcalc.symm⟩
  case ATTRIBUTE_IGNORE_TEXT_AND_DESC => exact ⟨_, hcalc.symm⟩
  case LAYOUT_IGNORE_ATTRIBUTE => exact ⟨_, hcalc.symm⟩
  case ACTIVITY_IGNORE_LAYOUT =>
      obtain ⟨x, _, hx⟩ := hcalc
      exact ⟨_, hx.symm⟩
  case PACKAGE =>
      obtain ⟨x, _, hx⟩ := hcalc
      exact ⟨_, hx.symm⟩

/-- C6: for distinct status levels, `calc_hash` values never collide (whatever
the tree and owning activity are), because the hash string is prefixed with
the level's ordinal. -/
theorem c6_level_prefix_collision_free (t : XmlNode) (l1 l2 : StatusLevel)
    (a : Option ActivityInfo) (h1 h2 : String) (hne : l1 ≠ l2)
    (hc1 : calcHash t l1 a = some h1) (hc2 : calcHash t l2 a = some h2) :
    h1 ≠ h2 := by
  obtain ⟨b1, hb1⟩ := calcHash_shape t l1 a h1 hc1
  obtain ⟨b2, hb2⟩ := calcHash_shape t l2 a h2 hc2
  rw [hb1, hb2]
  apply digit_append_ne l1.val l2.val
  · cases l1 <;> decide
  · cases l2 <;> decide
  · intro hval
    exact hne (statusLevelVal_inj l1 l2 hval)

/-- Witness for C6: the ACTIVITY_IGNORE_LAYOUT and PACKAGE hashes of the same
tree and activity differ. -/
theorem c6_level_prefix_collision_free_witness :
    (StatusLevel.ACTIVITY_IGNORE_LAYOUT ≠ StatusLevel.PACKAGE) ∧
    calcHash (XmlNode.mk "node" [] []) StatusLevel.ACTIVITY_IGNORE_LAYOUT
      (some ⟨"com.pkg", "MainActivity"⟩) = some "4MainActivity" ∧
    calcHash (XmlNode.mk "node" [] []) StatusLevel.PACKAGE
      (some ⟨"com.pkg", "MainActivity"⟩) = some "5com.pkg" ∧
    "4MainActivity" ≠ "5com.pkg" := by
  refine ⟨by decide, by decide, by decide, ?_⟩
  exact c6_level_prefix_collision_free (XmlNode.mk "node" [] [])
    StatusLevel.ACTIVITY_IGNORE_LAYOUT StatusLevel.PACKAGE
    (some ⟨"com.pkg", "MainActivity"⟩) "4MainActivity" "5com.pkg"
    (by decide) (by decide) (by decide)

/-! ## Tree addressing (positions stand for lxml element references) -/

def getNodeAt : XmlNode → List Nat → Option XmlNode
  | n, [] => some n
  | n, i :: rest =>
      match n.children.get? i with
      | some c => getNodeAt c rest
      | none => none

mutual

def updateNodeAtM : XmlNode → List Nat → (XmlNode → Option XmlNode) → Option XmlNode
  | n, [], f => f n
  | .mk t a c, i :: rest, f =>
      (updateChildrenAtM c i rest f).map (fun cs => XmlNode.mk t a cs)

def updateChildrenAtM :
    List XmlNode → Nat → List Nat → (XmlNode → Option XmlNode) → Option (List XmlNode)
  | [], _, _, _ => none
  | c :: cs, 0, rest, f => (updateNodeAtM c rest f).map (fun c' => c' :: cs)
  | c :: cs, i + 1, rest, f => (updateChildrenAtM cs i rest f).map (fun cs' => c :: cs')

end

/-! ## Normalization stage 1: `pass_down_actionable` (xml_util.py:184-236) -/

/-- The body of the local `pass_down` closure, acting on one element.  Note
that the source really tests `true(child.get("text", "").strip())`, i.e.
whether the stripped text equals the string `"true"`. -/
def pdaLocal (element : XmlNode) : XmlNode :=
  let listGroup := ["android.widget.RelativeLayout", "android.view.ViewGroup"]
  let clsOk : Bool :=
    match element.getAttr "class" with
    | some c => c ∈ listGroup
    | none => false
  if clsOk then
    let childs := element.children
    if childs.length ≥ 2 then
      -- Python `set` iteration; modelled in the order PASS_DOWN_ATTRIBUTES is written
      let parentHasAttrs := PASS_DOWN_ATTRIBUTES.filter (fun a => pyTrue (element.getAttr a))
      if parentHasAttrs = [] then element
      else
        let element := parentHasAttrs.foldl (fun e a => e.setAttr a "false") element
        let anyChildHasText :=
          childs.any (fun c => pyStrip (c.getAttrD "text" "") = "true")
        let newChilds := childs.map (fun child =>
          let thisChildHasText := pyStrip (child.getAttrD "text" "") = "true"
          if anyChildHasText && ¬thisChildHasText then child
          else
            let child := child.setAttr "content-desc"
              (concatStrings (some (child.getAttrD "content-desc" ""))
                (some (element.getAttrD "content-desc" "")) " under ")
            let child := child.setAttr "text"
              (concatStrings (some (child.getAttrD "text" ""))
                (some (element.getAttrD "text" "")) " under ")
            parentHasAttrs.foldl (fun c a => c.setAttr a "true") child)
        element.setChildren newChilds
    else element
  else element

mutual

def heightNode : XmlNode → Nat
  | .mk _ _ c => 1 + heightList c

def heightList : List XmlNode → Nat
  | [] => 0
  | c :: cs => max (heightNode c) (heightList cs)

end

/-- `do_func_on_every_element` with `pass_down`: pre-order, recursing into the
already-rewritten children.  The local pass only rewrites attributes (never
the tree shape), so recursion by tree height is exact; fuel keeps the
definition kernel-reducible. -/
def pdaNodeF : Nat → XmlNode → XmlNode
  | 0, n => n
  | fuel + 1, n =>
      let n1 := pdaLocal n
      n1.setChildren (n1.children.map (pdaNodeF fuel))

/-- `xml_util.pass_down_actionable`. -/
def pdaNode (n : XmlNode) : XmlNode :=
  pdaNodeF (heightNode n) n

/-! ## Normalization stage 2: `pass_container_text_down` (xml_util.py:239-276) -/

mutual

/-- Write `allTexts` into every node of a subtree with an empty/missing
`content-desc` (the source touches every `iterdescendants()` of the wrapper;
this function is applied to the wrapper's children); returns whether any node
was written. -/
def pctdSetDescNode (allTexts : String) : XmlNode → XmlNode × Bool
  | .mk t a c =>
      let (a', b1) :=
        if (alGet a "content-desc").getD "" = "" then
          (alSet a "content-desc" allTexts, true)
        else (a, false)
      let (c', b2) := pctdSetDescChildren allTexts c
      (.mk t a' c', b1 || b2)

def pctdSetDescChildren (allTexts : String) : List XmlNode → List XmlNode × Bool
  | [] => ([], false)
  | c :: cs =>
      let (c', b1) := pctdSetDescNode allTexts c
      let (rest, b2) := pctdSetDescChildren allTexts cs
      (c' :: rest, b1 || b2)

end

/-- The body of the local `pass_down` closure of `pass_container_text_down`.
`element_attr` iterates Python's `TEXT_ATTRIBUTES` set; modelled in the order
the source writes the set. -/
def pctdLocal (element : XmlNode) : XmlNode :=
  let clsOk : Bool :=
    match element.getAttr "class" with
    | some c => c ∈ OVERRIDE_CHILD_TEXT_CLASSES
    | none => false
  if clsOk then
    let elementAttr := TEXT_ATTRIBUTES.filterMap (fun k =>
      match element.getAttr k with
      | some v => if v ≠ "" then some (k, v) else none
      | none => none)
    if elementAttr = [] then element
    else
      let allTexts := "Description: " ++ String.intercalate ", " (elementAttr.map (fun p => p.2))
      let (children', setToChild) := pctdSetDescChildren allTexts element.children
      let element := element.setChildren children'
      if setToChild then
        let element := elementAttr.foldl (fun e p => e.setAttr p.1 "") element
        element.setAttr "abort_pass_up" "true"
      else element
  else element

/-- `do_func_on_every_element` with the label push-down pass: pre-order,
recursing into the rewritten children.  The pass preserves the tree shape, so
height-based fuel is exact. -/
def pctdNodeF : Nat → XmlNode → XmlNode
  | 0, n => n
  | fuel + 1, n =>
      let n1 := pctdLocal n
      n1.setChildren (n1.children.map (pctdNodeF fuel))

/-- `xml_util.pass_container_text_down`. -/
def pctdNode (n : XmlNode) : XmlNode :=
  pctdNodeF (heightNode n) n

/-! ## Normalization stage 3: `indent_xml` (xml_util.py:68-132)

Key-node detection plus `near_texts` / `child_texts` / `depth` / `xpath` /
`child_key_count` annotation, in a single post-order pass.  `xpath` values are
`root_element_tree.getpath(node)` strings, computed from the structural
position; positions (`List Nat` child-index vectors) stand for the element
references the Python closure collects into `current_found_elements`. -/

/-- One `getpath` step: the tag, with a 1-based index among same-tag siblings
when the tag is not unique at this level. -/
def pathStep (allCS : List XmlNode) (i : Nat) : String :=
  match allCS.get? i with
  | none => ""
  | some c =>
      let tagC := c.tag
      if (allCS.filter (fun x => x.tag = tagC)).length = 1 then tagC
      else
        tagC ++ "[" ++
          toString (((allCS.take (i + 1)).filter (fun x => x.tag = tagC)).length) ++ "]"

def pathSteps (allCS : List XmlNode) : List String :=
  (List.range allCS.length).map (fun i => pathStep allCS i)

/-- The near-text collection of `_indent_xml` (xml_util.py:90-99):
`itersiblings()` yields only the *following* siblings, so `sibsAfter` is
exactly what the loop sees (the `node == xml_tree` guard never fires). -/
def collectNearTexts (sibsAfter : List XmlNode) : Option (List String) :=
  (sibsAfter.foldlM (fun (acc : List String) sib =>
      (makeElementDescriptionList sib true true false true).map
        (fun d => acc ++ d)) ([] : List String)).map
    makeListUniqueAndPrintable

mutual

/-- `_indent_xml` on one node: process children first (each child sees its
following siblings in their pre-pass state), then annotate this node.  Returns
the rewritten node, the key count of the subtree, and the positions of found
key nodes in post-order. -/
def indentNode : XmlNode → List XmlNode → List Nat → String → Nat →
    Option (XmlNode × Nat × List (List Nat))
  | .mk tg a c, sibsAfter, pos, path, depth => do
  let node := XmlNode.mk tg a c
  let steps := pathSteps c
  let (children', childCount, foundC) ←
    indentChildren c steps 0 pos path depth
  let childTexts0 ← makeElementDescriptionList node true true false true
  let nearTexts ← collectNearTexts sibsAfter
  let node1 := (node.setChildren children').setAttr "near_texts" (jsonDumpsStrList nearTexts)
  let isThisImportant := getAvailableCommands node1 ≠ []
  let node2 := node1.setAttr "child_key_count" (toString childCount)
  let node3 := if isThisImportant then
      (node2.setAttr "depth" (toString depth)).setAttr "xpath" path
    else node2
  let extras ← children'.foldlM (fun (acc : List String) c =>
      if (c.getAttr "depth").isSome then pure acc
      else do
        let v ← c.getAttr "child_texts"
        let l ← jsonLoadsStrList v
        pure (acc ++ l)) ([] : List String)
  let childTexts1 := (childTexts0 ++ extras).filter (fun i => i ∉ nearTexts)
  let node4 := node3.setAttr "child_texts" (jsonDumpsStrList childTexts1)
  pure (node4, (if isThisImportant then childCount + 1 else childCount),
    foundC ++ (if isThisImportant then [pos] else []))

def indentChildren (cs : List XmlNode) (steps : List String) (i : Nat)
    (parentPos : List Nat) (parentPath : String) (depth : Nat) :
    Option (List XmlNode × Nat × List (List Nat)) :=
  match cs, steps with
  | [], _ => some ([], 0, [])
  | c :: cs', steps =>
      match indentNode c cs' (parentPos ++ [i])
          (parentPath ++ "/" ++ steps.headD "") (depth + 1) with
      | none => none
      | some (c', cnt, found) =>
          match indentChildren cs' steps.tail (i + 1) parentPos parentPath depth with
          | none => none
          | some (rest', cnt', found') => some (c' :: rest', cnt + cnt', found ++ found')

end

/-- `indent_xml`: run `_indent_xml` from the root (whose `getpath` is
`/tag` and which has no siblings).  Returns the annotated tree and the found
key-node positions (the `current_found_elements` list of
`Status.init_element_tree`, in post-order). -/
def indentXml (root : XmlNode) : Option (XmlNode × List (List Nat)) :=
  (indentNode root [] [] ("/" ++ root.tag) 0).map (fun r => (r.1, r.2.2))

/-! ## Normalization stages 4-6 (xml_util.py:304-332, 545-557, 596-605) -/

/-- One child update of `pass_down_child_texts` (xml_util.py:319-330). -/
def pdctChild (parentCT : List String) (child : XmlNode) : Option XmlNode := do
  let childCT ← jsonLoadsStrList (child.getAttrD "child_texts" "[]")
  if childCT = parentCT then pure child
  else do
    let nearT ← jsonLoadsStrList (child.getAttrD "near_texts" "[]")
    let finalCT := makeListUniqueAndPrintable
      ((parentCT ++ childCT).filter (fun i => i ∉ nearT))
    pure (child.setAttr "child_texts" (jsonDumpsStrList finalCT))

/-- `pass_down_child_texts` for one key element (one iteration of the outer
loop). -/
def pdctStep (t : XmlNode) (pos : List Nat) : Option XmlNode :=
  match pos with
  | [] => some t
  | _ =>
      let parentPos := pos.dropLast
      match getNodeAt t parentPos with
      | none => none
      | some parent =>
          if parent.getAttrD "depth" "" ≠ "" then some t
          else
            match jsonLoadsStrList (parent.getAttrD "child_texts" "[]") with
            | none => none
            | some parentCT =>
                if parentCT = [] then some t
                else
                  updateNodeAtM t parentPos (fun p =>
                    (p.children.mapM (pdctChild parentCT)).map
                      (fun cs => p.setChildren cs))

/-- `pass_down_child_texts` (xml_util.py:304-332). -/
def passDownChildTexts (t : XmlNode) (found : List (List Nat)) : Option XmlNode :=
  found.foldlM pdctStep t

/-- `list.remove(v)`: drop the first occurrence. -/
def pyListRemove : List String → String → List String
  | [], _ => []
  | x :: xs, v => if x = v then xs else x :: pyListRemove xs v

/-- The iterate-over-a-copy loop of `keep_only_one_res_id_in_child_texts`. -/
def keepResIdLoop : List String → Bool → List String → List String
  | [], _, live => live
  | ct :: rest, has, live =>
      if strStartsWith ct "resource_id: " then
        if has then keepResIdLoop rest has (pyListRemove live ct)
        else keepResIdLoop rest true live
      else keepResIdLoop rest has live

/-- `keep_only_one_res_id_in_child_texts` (xml_util.py:545-557). -/
def keepOnlyOneResIdInChildTexts (t : XmlNode) (found : List (List Nat)) :
    Option XmlNode :=
  found.foldlM (fun t pos =>
    updateNodeAtM t pos (fun el => do
      let ct ← jsonLoadsStrList (el.getAttrD "child_texts" "[]")
      if ct.length ≤ 1 then pure el
      else pure (el.setAttr "child_texts" (jsonDumpsStrList (keepResIdLoop ct false ct)))))
    t

/-- `remove_duplicate_near_texts` (xml_util.py:596-605): collect every key
element's direct near-texts, then drop from each key element every entry that
occurs in that combined list. -/
def removeDuplicateNearTexts (t : XmlNode) (found : List (List Nat)) :
    Option XmlNode := do
  let allDirect ← found.foldlM (fun (acc : List String) pos => do
      let el ← getNodeAt t pos
      let ns ← jsonLoadsStrList (el.getAttrD "near_texts" "[]")
      pure (acc ++ ns)) ([] : List String)
  found.foldlM (fun t pos =>
      updateNodeAtM t pos (fun el => do
        let cur ← jsonLoadsStrList (el.getAttrD "near_texts" "[]")
        pure (el.setAttr "near_texts"
          (jsonDumpsStrList (cur.filter (fun i => i ∉ allDirect)))))) t

/-! ## Traversal and element listing -/

mutual

/-- `xml_util._traverse_xml`: post-order list of nodes carrying a `depth`
attribute, paired with their key-ancestor count (self included). -/
def travNode : XmlNode → Nat → List (XmlNode × Nat)
  | .mk tg a c, keyDepth =>
      let n := XmlNode.mk tg a c
      let kd := if (n.getAttr "depth").isSome then keyDepth + 1 else keyDepth
      travList c kd ++
        (if (n.getAttr "depth").isSome then [(n, kd)] else [])

def travList : List XmlNode → Nat → List (XmlNode × Nat)
  | [], _ => []
  | c :: cs, kd => travNode c kd ++ travList cs kd

end

/-- `xml_util.traverse_xml`. -/
def traverseXml (t : XmlNode) : List (XmlNode × Nat) :=
  travNode t 0

/-- Configuration switches of `config.app.core` relevant to the engine. -/
structure CoreConfig : Type where
  filterByStatusWeight : Bool
  filterByGlobalWeight : Bool
deriving DecidableEq, Repr

/-- config.py defaults. -/
def defaultConfig : CoreConfig :=
  { filterByStatusWeight := true, filterByGlobalWeight := true }

/-- `Status.get_elements(disable_weight=True)` (activity_status_memory.py:205-227):
with weights disabled the random gate always passes, so this keeps every key
element (restricted to displayed ones when status-weight filtering is on). -/
def getElementsNoWeight (cfg : CoreConfig) (t : XmlNode) : List (XmlNode × Nat) :=
  if ¬cfg.filterByStatusWeight then traverseXml t
  else (traverseXml t).filter (fun p => pyTrue (p.1.getAttr "displayed"))

/-! ## Status construction (`Status.__init__` / `init_element_tree`) -/

/-- `Status.init_element_tree` (activity_status_memory.py:173-203);
`merge_children_text_desc` returns its input unchanged (disabled in source). -/
def initElementTree (t : XmlNode) : Option (XmlNode × List (List Nat)) := do
  let t1 := pdaNode t
  let t2 := pctdNode t1
  let (t3, found) ← indentXml t2
  let t4 ← passDownChildTexts t3 found
  let t5 ← keepOnlyOneResIdInChildTexts t4 found
  let t6 ← removeDuplicateNearTexts t5 found
  pure (t6, found)

/-- One `Status`, with the owning-activity back reference reduced to what the
claims use and object identity modelled by position in the owning Activity's
status list. -/
structure StatusM : Type where
  hash : String
  stepCount : Nat
  xml : String
  xmlTree : XmlNode
  allElements : List (XmlNode × Nat)
  elementWeights : WTable
  elementDepths : List (String × Nat)
  elementsToThis : List XmlNode
  fromStatus : Option Nat
  hasInputed : Bool
deriving DecidableEq, Repr

/-- `Status.__init__` (activity_status_memory.py:93-124): hash first (on the
tree as handed in), then the in-place normalization pipeline, then the element
list and weight table.  Returns the status and the mutated tree (the caller's
tree object). -/
def statusNew (cfg : CoreConfig) (act : ActivityInfo) (xml : String)
    (xmlTree : XmlNode) (stepCount : Nat) (statusLevel : StatusLevel)
    (fromStatus : Option Nat) : Option (StatusM × XmlNode) := do
  let hash ← calcHash xmlTree statusLevel (some act)
  let (t, _) ← initElementTree xmlTree
  let allElems := getElementsNoWeight cfg t
  let weights ← initElementWeights (allElems.map (fun p => p.1))
  pure ({ hash := hash, stepCount := stepCount, xml := xml, xmlTree := t,
          allElements := allElems, elementWeights := weights, elementDepths := [],
          elementsToThis := [], fromStatus := fromStatus, hasInputed := false }, t)

/-! ## Activity (`activity_status_memory.py:384-476`) -/

structure ActivityM : Type where
  packageName : String
  activityName : String
  statuses : List StatusM
  statusLevel : StatusLevel
deriving DecidableEq, Repr

def ActivityM.info (a : ActivityM) : ActivityInfo :=
  ⟨a.packageName, a.activityName⟩

/-- `Activity.__init__` for the fields the claims touch. -/
def activityNew (packageName activityName : String) (statusLevel : StatusLevel) :
    ActivityM :=
  { packageName := packageName,
    activityName := getFullActivityName packageName activityName,
    statuses := [], statusLevel := statusLevel }

/-- The `for status in self.statuses` scan of `Activity._get_status`: index of
the first stored status with the given hash. -/
def findStatusIdx : List StatusM → String → Option Nat
  | [], _ => none
  | s :: rest, h =>
      if s.hash = h then some 0 else (findStatusIdx rest h).map (fun i => i + 1)

/-- `Activity._get_status` (activity_status_memory.py:442-457): build a fresh
candidate (mutating the tree), then return the first stored status with the
same hash, else the candidate.  The returned `Option Nat` is the index of the
cache hit (`none` = the candidate is new). -/
def getStatusCached (cfg : CoreConfig) (a : ActivityM) (xml : String)
    (xmlTree : XmlNode) (stepCount : Nat) :
    Option (StatusM × XmlNode × Option Nat) := do
  let (st, t) ← statusNew cfg a.info xml xmlTree stepCount a.statusLevel none
  match findStatusIdx a.statuses st.hash with
  | some i =>
      match a.statuses.get? i with
      | some cached => pure (cached, t, some i)
      | none => none
  | none => pure (st, t, none)

/-- `Activity.add_status` (activity_status_memory.py:420-428).  Returns the
updated activity, the mutated tree, and the index of the returned Status in
the activity's status list (indices model Python object identity: the claim
"returns the identical Status object" is "returns the same index"). -/
def addStatus (cfg : CoreConfig) (a : ActivityM) (xml : String)
    (xmlTree : XmlNode) (stepCount : Nat) : Option (ActivityM × XmlNode × Nat) := do
  let (st, t, cachedIdx) ← getStatusCached cfg a xml xmlTree stepCount
  match cachedIdx with
  | some i => pure (a, t, i)
  | none =>
      let st := { st with fromStatus :=
        if a.statuses.isEmpty then none else some (a.statuses.length - 1) }
      pure ({ a with statuses := a.statuses ++ [st] }, t, a.statuses.length)

/-! ## Claim C2: `add_status` dedup idempotence

The claim fails on the code: `Status.__init__` runs `init_element_tree`,
which mutates the caller's tree in place (adding `near_texts`,
`child_key_count`, `depth`, `xpath`, `child_texts` attributes), and at the
tree-hashing levels the new attributes change the serialization, hence the
hash, so a second `add_status` with the same tree object builds a second
Status.  A nearby statement holds: at the tree-independent levels
(ACTIVITY_IGNORE_LAYOUT, PACKAGE) the second call returns the identical
Status and the count stays put, and the same holds whenever the second
call's computed hash coincides with a stored one. -/

/-- A one-button UI snapshot. -/
def c2Tree : XmlNode :=
  .mk "node"
    [("class", "android.widget.Button"), ("clickable", "true"), ("displayed", "true")] []

def c2Activity : ActivityM := activityNew "com.pkg" ".Main" StatusLevel.TEXT

/-- Counterexample to C2 as stated: on an Activity at level TEXT, the second
`add_status` call with the tree object (mutated by the first call, as in the
source) returns a different Status (index 1, not 0) and grows the status list
from 1 to 2. -/
theorem c2_dedup_counterexample :
    ((do
      let (a1, t1, i1) ← addStatus defaultConfig c2Activity "" c2Tree 0
      let (a2, _, i2) ← addStatus defaultConfig a1 "" t1 0
      pure (i1, a1.statuses.length, i2, a2.statuses.length)) :
      Option (Nat × Nat × Nat × Nat)) = some (0, 1, 1, 2) := by
  decide

theorem findStatusIdx_append_of_none (l : List StatusM) (s : StatusM) (h : String)
    (hnone : findStatusIdx l h = none) :
    findStatusIdx (l ++ [s]) h =
      if s.hash = h then some l.length else none := by
  induction l with
  | nil => simp [findStatusIdx]
  | cons x rest ih =>
      simp only [findStatusIdx, List.cons_append] at hnone ⊢
      by_cases hx : x.hash = h
      · simp [hx] at hnone
      · simp only [hx, if_false, Option.map_eq_none'] at hnone
        simp only [hx, if_false, List.append_eq]
        rw [ih hnone]
        by_cases hs : s.hash = h
        · simp [hs]
        · simp [hs]

theorem statusNew_hash_eq (cfg : CoreConfig) (act : ActivityInfo) (xml : String)
    (tree : XmlNode) (step : Nat) (lvl : StatusLevel) (fs : Option Nat)
    (st : StatusM) (t' : XmlNode)
    (h : statusNew cfg act xml tree step lvl fs = some (st, t')) :
    calcHash tree lvl (some act) = some st.hash := by
  unfold statusNew at h
  cases hch : calcHash tree lvl (some act) with
  | none => rw [hch] at h; simp at h
  | some hh =>
      rw [hch] at h
      simp only [Option.pure_def, Option.bind_eq_bind, Option.some_bind] at h
      cases hit : initElementTree tree with
      | none => rw [hit] at h; simp at h
      | some p =>
          rw [hit] at h
          obtain ⟨t6, found⟩ := p
          simp only [Option.pure_def, Option.bind_eq_bind, Option.some_bind] at h
          cases hw : initElementWeights ((getElementsNoWeight cfg t6).map (fun p => p.1)) with
          | none => rw [hw] at h; simp at h
          | some weights =>
              rw [hw] at h
              simp only [Option.pure_def, Option.bind_eq_bind, Option.some_bind, Option.some_inj, Prod.mk.injEq] at h
              obtain ⟨hst, _⟩ := h
              rw [← hst]

theorem calcHash_tree_free (lvl : StatusLevel)
    (hlvl : lvl = StatusLevel.ACTIVITY_IGNORE_LAYOUT ∨ lvl = StatusLevel.PACKAGE)
    (t1 t2 : XmlNode) (a : Option ActivityInfo) :
    calcHash t1 lvl a = calcHash t2 lvl a := by
  cases hlvl with
  | inl h => subst h; rfl
  | inr h => subst h; rfl

theorem getStatusCached_spec (cfg : CoreConfig) (a : ActivityM) (xml : String)
    (tree : XmlNode) (step : Nat) (st : StatusM) (t' : XmlNode) (ci : Option Nat)
    (h : getStatusCached cfg a xml tree step = some (st, t', ci)) :
    ∃ st0, statusNew cfg a.info xml tree step a.statusLevel none = some (st0, t') ∧
      ((∃ i, ci = some i ∧ findStatusIdx a.statuses st0.hash = some i ∧
          a.statuses.get? i = some st) ∨
       (ci = none ∧ findStatusIdx a.statuses st0.hash = none ∧ st = st0)) := by
  unfold getStatusCached at h
  cases hsn : statusNew cfg a.info xml tree step a.statusLevel none with
  | none => rw [hsn] at h; simp at h
  | some p =>
      rw [hsn] at h
      obtain ⟨st0, t0⟩ := p
      simp only [Option.pure_def, Option.bind_eq_bind, Option.some_bind] at h
      split at h
      · rename_i i hfi
        split at h
        · rename_i cached hget
          simp only [Option.some_inj, Prod.mk.injEq] at h
          obtain ⟨hc, ht, hci⟩ := h
          subst hc; subst ht
          exact ⟨st0, rfl, Or.inl ⟨i, hci.symm, hfi, hget⟩⟩
        · simp at h
      · rename_i hfi
        simp only [Option.some_inj, Prod.mk.injEq] at h
        obtain ⟨hc, ht, hci⟩ := h
        subst ht
        exact ⟨st0, rfl, Or.inr ⟨hci.symm, hfi, hc.symm⟩⟩

theorem addStatus_spec (cfg : CoreConfig) (a : ActivityM) (xml : String)
    (tree : XmlNode) (step : Nat) (a' : ActivityM) (t' : XmlNode) (i : Nat)
    (h : addStatus cfg a xml tree step = some (a', t', i)) :
    ∃ st ci, getStatusCached cfg a xml tree step = some (st, t', ci) ∧
      ((∃ j, ci = some j ∧ a' = a ∧ i = j) ∨
       (ci = none ∧
        a' = { a with statuses := a.statuses ++
          [{ st with fromStatus :=
              (if a.statuses.isEmpty then none else some (a.statuses.length - 1)) }] } ∧
        i = a.statuses.length)) := by
  unfold addStatus at h
  cases hgc : getStatusCached cfg a xml tree step with
  | none => rw [hgc] at h; simp at h
  | some p =>
      rw [hgc] at h
      obtain ⟨st, t0, ci⟩ := p
      simp only [Option.pure_def, Option.bind_eq_bind, Option.some_bind] at h
      cases ci with
      | some j =>
          simp only [Option.some_inj, Prod.mk.injEq] at h
          obtain ⟨h1, h2, h3⟩ := h
          subst h2
          exact ⟨st, some j, rfl, Or.inl ⟨j, rfl, h1.symm, h3.symm⟩⟩
      | none =>
          simp only [Option.some_inj, Prod.mk.injEq] at h
          obtain ⟨h1, h2, h3⟩ := h
          subst h2
          exact ⟨st, none, rfl, Or.inr ⟨rfl, h1.symm, h3.symm⟩⟩

/-- C2, amended: at the tree-independent hash levels (ACTIVITY_IGNORE_LAYOUT
and PACKAGE) the claimed idempotence does hold — a second `add_status` call on
the same Activity (with the tree object the first call mutated) returns the
identical Status (same index) and does not grow the status list.  At the
tree-hashing levels the original claim is false (`c2_dedup_counterexample`),
because the first call's in-place normalization changes the serialization the
hash is computed from. -/
theorem c2_add_status_idempotent_tree_free (cfg : CoreConfig) (a : ActivityM)
    (xml xml2 : String) (tree : XmlNode) (step step2 : Nat)
    (a1 a2 : ActivityM) (t1 t2 : XmlNode) (i1 i2 : Nat)
    (hlvl : a.statusLevel = StatusLevel.ACTIVITY_IGNORE_LAYOUT ∨
            a.statusLevel = StatusLevel.PACKAGE)
    (h1 : addStatus cfg a xml tree step = some (a1, t1, i1))
    (h2 : addStatus cfg a1 xml2 t1 step2 = some (a2, t2, i2)) :
    i2 = i1 ∧ a2.statuses.length = a1.statuses.length := by
  obtain ⟨st, ci, hgc, hrest⟩ := addStatus_spec _ _ _ _ _ _ _ _ h1
  obtain ⟨st0, hsn, hci⟩ := getStatusCached_spec _ _ _ _ _ _ _ _ hgc
  obtain ⟨st', ci', hgc', hrest'⟩ := addStatus_spec _ _ _ _ _ _ _ _ h2
  obtain ⟨st0', hsn', hci'⟩ := getStatusCached_spec _ _ _ _ _ _ _ _ hgc'
  have hhash0 := statusNew_hash_eq _ _ _ _ _ _ _ _ _ hsn
  have hhash1 := statusNew_hash_eq _ _ _ _ _ _ _ _ _ hsn'
  have hinfo : a1.info = a.info ∧ a1.statusLevel = a.statusLevel := by
    rcases hrest with ⟨j, _, ha1, _⟩ | ⟨_, ha1, _⟩ <;> rw [ha1] <;> exact ⟨rfl, rfl⟩
  have hsame : st0'.hash = st0.hash := by
    rw [hinfo.1, hinfo.2] at hhash1
    have h4 := (calcHash_tree_free a.statusLevel hlvl t1 tree (some a.info)) ▸ hhash1
    rw [hhash0] at h4
    exact (Option.some_inj.mp h4).symm
  rcases hrest with ⟨j, hcieq, ha1, hi1⟩ | ⟨hcieq, ha1, hi1⟩
  · -- first call was a cache hit at index j
    subst hcieq
    rcases hci with ⟨i, hii, hfi, hget⟩ | ⟨hcontra, _, _⟩
    · have hij := Option.some_inj.mp hii
      have hfi1 : findStatusIdx a1.statuses st0'.hash = some i := by
        rw [ha1, hsame]; exact hfi
      rcases hci' with ⟨i', hii', hfi', _⟩ | ⟨_, hfi', _⟩
      · rw [hfi1] at hfi'
        have hii2 := Option.some_inj.mp hfi'
        rcases hrest' with ⟨j', hj', ha2, hi2⟩ | ⟨hc', _, _⟩
        · rw [hii'] at hj'
          have hji' := Option.some_inj.mp hj'
          exact ⟨by omega, by rw [ha2]⟩
        · rw [hii'] at hc'; exact absurd hc' (by simp)
      · rw [hfi1] at hfi'; exact absurd hfi' (by simp)
    · exact absurd hcontra (by simp)
  · -- first call appended the fresh status
    subst hcieq
    rcases hci with ⟨i, hii, _, _⟩ | ⟨_, hfi, hsteq⟩
    · exact absurd hii (by simp)
    · have hfi1 : findStatusIdx a1.statuses st0'.hash = some a.statuses.length := by
        rw [ha1, hsame]
        rw [findStatusIdx_append_of_none _ _ _ hfi]
        have hh : ({ st with fromStatus :=
            (if a.statuses.isEmpty then none
             else some (a.statuses.length - 1)) } : StatusM).hash = st.hash := rfl
        rw [hh, hsteq]
        simp
      rcases hci' with ⟨i', hii', hfi', _⟩ | ⟨_, hfi', _⟩
      · rw [hfi1] at hfi'
        have hii2 := Option.some_inj.mp hfi'
        rcases hrest' with ⟨j', hj', ha2, hi2⟩ | ⟨hc', _, _⟩
        · rw [hii'] at hj'
          have hji' := Option.some_inj.mp hj'
          exact ⟨by omega, by rw [ha2]⟩
        · rw [hii'] at hc'; exact absurd hc' (by simp)
      · rw [hfi1] at hfi'; exact absurd hfi' (by simp)

/-- A tree-independent-level activity for the C2 witness. -/
def c2ActivityL4 : ActivityM := activityNew "com.pkg" ".Main" StatusLevel.ACTIVITY_IGNORE_LAYOUT

/-- Witness for the amended C2 at a concrete activity and tree. -/
theorem c2_add_status_idempotent_tree_free_witness :
    ((addStatus defaultConfig c2ActivityL4 "" c2Tree 0).bind (fun r1 =>
      (addStatus defaultConfig r1.1 "" r1.2.1 0).map (fun r2 =>
        decide (r2.2.2 = r1.2.2) && decide (r2.1.statuses.length = r1.1.statuses.length)))) =
      some true := by
  cases hEq1 : addStatus defaultConfig c2ActivityL4 "" c2Tree 0 with
  | none => exact absurd hEq1 (by decide)
  | some r1 =>
      cases hEq2 : addStatus defaultConfig r1.1 "" r1.2.1 0 with
      | none =>
          have hsome : (addStatus defaultConfig c2ActivityL4 "" c2Tree 0).bind
              (fun r1 => (addStatus defaultConfig r1.1 "" r1.2.1 0).map
                (fun _ => true)) = some true := by decide
          rw [hEq1] at hsome
          simp only [Option.some_bind, hEq2] at hsome
          exact absurd hsome (by simp)
      | some r2 =>
          obtain ⟨a1, t1, i1⟩ := r1
          obtain ⟨a2, t2, i2⟩ := r2
          simp only at hEq2
          obtain ⟨hi, hl⟩ := c2_add_status_idempotent_tree_free defaultConfig
            c2ActivityL4 "" "" c2Tree 0 0 a1 a2 t1 t2 i1 i2 (Or.inl rfl) hEq1 hEq2
          simp only [Option.some_bind]
          rw [hEq2]
          simp [hi, hl]

/-! ## Claim C3: cross-element near-text dedup -/

/-- A snapshot with one key node (the button, child 0) whose only near-text
`"sib"` comes from its single following sibling: the entry occurs as a direct
near-text of exactly one key node. -/
def c3Tree : XmlNode :=
  .mk "root" [("class", "android.widget.FrameLayout")]
    [ .mk "n" [("class", "android.widget.Button"), ("clickable", "true"),
        ("displayed", "true")] [],
      .mk "n" [("class", "android.widget.TextView"), ("text", "sib"),
        ("displayed", "true")] [] ]

/-- C3 is the intent of `remove_duplicate_near_texts`, but the implementation
filters every key element's near-texts against the concatenation of *all* key
elements' near-texts — a list that always contains the element's own entries —
so every near-text entry is removed, including entries that occur in exactly
one key node.  At `c3Tree`, after key-node detection the button's `near_texts`
is `["sib"]` (an entry of exactly one key node), yet after the dedup stage of
`init_element_tree` it is `[]` instead of staying `["sib"]`. -/
theorem c3_unique_near_text_removed :
    ((indentXml (pctdNode (pdaNode c3Tree))).bind (fun p =>
        (getNodeAt p.1 [0]).bind (fun n => n.getAttr "near_texts"))) =
      some "[\"sib\"]" ∧
    ((initElementTree c3Tree).bind (fun p =>
        (getNodeAt p.1 [0]).bind (fun n => n.getAttr "near_texts"))) = some "[]" := by
  exact ⟨by decide, by decide⟩

/-! ## Claim C8: near-texts come only from following siblings -/

/-- Modelled from the spec of C8 for comparison: "`nearTexts` = deduplicated,
printable-only text/description strings of sibling nodes (excluding self)",
i.e. built from *all* siblings, preceding ones included. -/
def nearTextsAllSiblingsSpec (siblingsBefore siblingsAfter : List XmlNode) :
    Option (List String) :=
  (((siblingsBefore ++ siblingsAfter).foldlM (fun (acc : List String) sib =>
      (makeElementDescriptionList sib true true false true).map
        (fun d => acc ++ d)) ([] : List String))).map
    makeListUniqueAndPrintable

/-- The preceding sibling (child 0) of the button in `c8Tree`. -/
def c8Sibling : XmlNode :=
  .mk "n" [("class", "android.widget.TextView"), ("text", "sib"),
    ("displayed", "true")] []

def c8Tree : XmlNode :=
  .mk "root" [("class", "android.widget.FrameLayout")]
    [ c8Sibling,
      .mk "n" [("class", "android.widget.Button"), ("clickable", "true"),
        ("displayed", "true")] [] ]

/-- Counterexample to C8 as stated: the button (child 1) has a preceding
sibling with contentful text `"sib"`, but its computed `near_texts` is the
empty list, not the `["sib"]` the all-siblings reading predicts —
`itersiblings()` yields only following siblings. -/
theorem c8_preceding_sibling_counterexample :
    ((indentXml (pctdNode (pdaNode c8Tree))).bind (fun p =>
        (getNodeAt p.1 [1]).bind (fun n => n.getAttr "near_texts"))) = some "[]" ∧
    (nearTextsAllSiblingsSpec [c8Sibling] []).map jsonDumpsStrList =
      some "[\"sib\"]" ∧
    ("[]" : String) ≠ "[\"sib\"]" := by
  exact ⟨by decide, by decide, by decide⟩


/-! ## Claims C9 and C10: the weight table's keys -/

theorem alGet_updateElementWeight_ne (t : WTable) (k p : String) (w : WeightType)
    (h : p ≠ k) : alGet (updateElementWeight t k w) p = alGet t p := by
  unfold updateElementWeight
  exact alGet_alSet_ne _ _ _ _ h

theorem updateElementWeight_disable (t : WTable) (k : String) :
    alGet (updateElementWeight t k Weight.DISABLED_FOREVER) k =
      some Weight.DISABLED_FOREVER := by
  unfold updateElementWeight newElementWeight
  rw [if_pos (by decide)]
  exact alGet_alSet_self ..

theorem initElementWeights_keys (elems : List XmlNode) (t : WTable)
    (h : initElementWeights elems = some t) :
    (alGet t "back").isSome ∧
    ∀ e, e ∈ elems → ∀ x, e.getAttr "xpath" = some x → (alGet t x).isSome := by
  have hmem : ∀ (l : List XmlNode) (t0 t1 : WTable),
      l.foldlM (fun (t : WTable) (e : XmlNode) => (e.getAttr "xpath").map
        (fun x => updateElementWeight t x Weight.DEFAULT)) t0 = some t1 →
      (∀ k, (alGet t0 k).isSome → (alGet t1 k).isSome) ∧
      (∀ e, e ∈ l → ∀ x, e.getAttr "xpath" = some x → (alGet t1 x).isSome) := by
    intro l
    induction l with
    | nil =>
        intro t0 t1 hfold
        simp only [List.foldlM, pure, Option.some_inj] at hfold
        subst hfold
        exact ⟨fun k hk => hk, fun e he => absurd he (List.not_mem_nil e)⟩
    | cons e rest ih =>
        intro t0 t1 hfold
        simp only [List.foldlM] at hfold
        cases hx : XmlNode.getAttr e "xpath" with
        | none => rw [hx] at hfold; simp [Option.map, bind] at hfold
        | some x =>
            rw [hx] at hfold
            simp only [Option.map_some', Option.some_bind] at hfold
            obtain ⟨hkeep, hall⟩ := ih (updateElementWeight t0 x Weight.DEFAULT) t1 hfold
            constructor
            · intro k hk
              apply hkeep
              by_cases hkx : k = x
              · subst hkx
                rw [updateElementWeight, alGet_alSet_self]
                rfl
              · rw [alGet_updateElementWeight_ne _ _ _ _ hkx]
                exact hk
            · intro e2 he2 x2 hx2
              rcases List.mem_cons.mp he2 with he2 | he2
              · subst he2
                rw [hx] at hx2
                obtain rfl := Option.some_inj.mp hx2
                apply hkeep
                rw [updateElementWeight, alGet_alSet_self]
                rfl
              · exact hall e2 he2 x2 hx2
  unfold initElementWeights at h
  cases hfold : List.foldlM (fun (t : WTable) (e : XmlNode) => (e.getAttr "xpath").map
      (fun x => updateElementWeight t x Weight.DEFAULT)) ([] : WTable) elems with
  | none => rw [hfold] at h; simp at h
  | some t1 =>
      rw [hfold] at h
      simp only [Option.map_some', Option.some_inj] at h
      subst h
      obtain ⟨hkeep, hall⟩ := hmem elems [] t1 hfold
      constructor
      · rw [updateElementWeight, alGet_alSet_self]
        rfl
      · intro e he x hx
        have hx1 := hall e he x hx
        by_cases hxb : x = "back"
        · subst hxb
          rw [updateElementWeight, alGet_alSet_self]
          rfl
        · rw [alGet_updateElementWeight_ne _ _ _ _ hxb]
          exact hx1

theorem initElementWeights_absent (elems : List XmlNode) (t : WTable) (p : String)
    (h : initElementWeights elems = some t) (hback : p ≠ "back")
    (hel : ∀ e, e ∈ elems → e.getAttr "xpath" ≠ some p) :
    alGet t p = none := by
  have hmem : ∀ (l : List XmlNode) (t0 t1 : WTable),
      l.foldlM (fun (t : WTable) (e : XmlNode) => (e.getAttr "xpath").map
        (fun x => updateElementWeight t x Weight.DEFAULT)) t0 = some t1 →
      (∀ e, e ∈ l → e.getAttr "xpath" ≠ some p) →
      alGet t0 p = none → alGet t1 p = none := by
    intro l
    induction l with
    | nil =>
        intro t0 t1 hfold _ h0
        simp only [List.foldlM, pure, Option.some_inj] at hfold
        subst hfold
        exact h0
    | cons e rest ih =>
        intro t0 t1 hfold hne h0
        simp only [List.foldlM] at hfold
        cases hx : XmlNode.getAttr e "xpath" with
        | none => rw [hx] at hfold; simp [Option.map, bind] at hfold
        | some x =>
            rw [hx] at hfold
            simp only [Option.map_some', Option.some_bind] at hfold
            apply ih (updateElementWeight t0 x Weight.DEFAULT) t1 hfold
              (fun e2 he2 => hne e2 (List.mem_cons_of_mem e he2))
            have hpx : p ≠ x := by
              intro hpe
              exact hne e (List.mem_cons_self e rest) (by rw [hx, hpe])
            rw [alGet_updateElementWeight_ne _ _ _ _ hpx]
            exact h0
  unfold initElementWeights at h
  cases hfold : List.foldlM (fun (t : WTable) (e : XmlNode) => (e.getAttr "xpath").map
      (fun x => updateElementWeight t x Weight.DEFAULT)) ([] : WTable) elems with
  | none => rw [hfold] at h; simp at h
  | some t1 =>
      rw [hfold] at h
      simp only [Option.map_some', Option.some_inj] at h
      subst h
      rw [alGet_updateElementWeight_ne _ _ _ _ hback]
      exact hmem elems [] t1 hfold hel (by simp [alGet])

theorem statusNew_fields (cfg : CoreConfig) (act : ActivityInfo) (xml : String)
    (tree : XmlNode) (step : Nat) (lvl : StatusLevel) (fs : Option Nat)
    (st : StatusM) (t' : XmlNode)
    (h : statusNew cfg act xml tree step lvl fs = some (st, t')) :
    st.allElements = getElementsNoWeight cfg t' ∧
    initElementWeights ((getElementsNoWeight cfg t').map (fun p => p.1)) =
      some st.elementWeights ∧
    st.stepCount = step ∧ st.elementDepths = [] := by
  unfold statusNew at h
  cases hch : calcHash tree lvl (some act) with
  | none => rw [hch] at h; simp at h
  | some hh =>
      rw [hch] at h
      simp only [Option.pure_def, Option.bind_eq_bind, Option.some_bind] at h
      cases hit : initElementTree tree with
      | none => rw [hit] at h; simp at h
      | some p =>
          rw [hit] at h
          obtain ⟨t6, found⟩ := p
          simp only [Option.pure_def, Option.bind_eq_bind, Option.some_bind] at h
          cases hw : initElementWeights ((getElementsNoWeight cfg t6).map (fun p => p.1)) with
          | none => rw [hw] at h; simp at h
          | some weights =>
              rw [hw] at h
              simp only [Option.some_bind, Option.some_inj, Prod.mk.injEq] at h
              obtain ⟨hst, ht⟩ := h
              subst ht
              rw [← hst]
              exact ⟨rfl, hw, rfl, rfl⟩

/-- C10: every freshly built Status's weight table has, besides one default
entry per key element xpath, the synthetic `"back"` entry at the default 100,
on which `get_weight` and `single_ban_element("back")` operate without
error. -/
theorem c10_back_weight_entry (cfg : CoreConfig) (act : ActivityInfo)
    (xml : String) (tree : XmlNode) (step : Nat) (lvl : StatusLevel)
    (fs : Option Nat) (st : StatusM) (t' : XmlNode)
    (h : statusNew cfg act xml tree step lvl fs = some (st, t')) :
    alGet st.elementWeights "back" = some Weight.DEFAULT ∧
    (∀ e d, (e, d) ∈ st.allElements → ∀ x, e.getAttr "xpath" = some x →
        alGet st.elementWeights x = some Weight.DEFAULT) ∧
    getWeightXpath st.elementWeights "back" = some Weight.DEFAULT ∧
    alGet (singleBanElement st.elementWeights "back") "back" =
      some Weight.DISABLED_FOREVER := by
  obtain ⟨hall, hw, _, _⟩ := statusNew_fields _ _ _ _ _ _ _ _ _ h
  have hdflt := initElementWeights_default _ _ hw
  obtain ⟨hback, hkeys⟩ := initElementWeights_keys _ _ hw
  have hbackval : alGet st.elementWeights "back" = some Weight.DEFAULT := by
    cases hb : alGet st.elementWeights "back" with
    | none => rw [hb] at hback; simp at hback
    | some w => rw [hdflt "back" w hb]
  refine ⟨hbackval, ?_, hbackval, ?_⟩
  · intro e d hmem x hx
    have he : e ∈ (getElementsNoWeight cfg t').map (fun p => p.1) := by
      rw [← hall]
      exact List.mem_map.mpr ⟨(e, d), hmem, rfl⟩
    have hx1 := hkeys e he x hx
    cases hb : alGet st.elementWeights x with
    | none => rw [hb] at hx1; simp at hx1
    | some w => rw [hdflt x w hb]
  · exact updateElementWeight_disable _ _

/-- C9: `get_weight` is a raw dict access: for a path outside this Status's
weight table (not a key element's xpath and not `"back"`) it raises
(`KeyError`, modelled as `none`) instead of returning any default; for every
stored path it returns the stored weight unchanged. -/
theorem c9_get_weight_fails_loudly (cfg : CoreConfig) (act : ActivityInfo)
    (xml : String) (tree : XmlNode) (step : Nat) (lvl : StatusLevel)
    (fs : Option Nat) (st : StatusM) (t' : XmlNode) (p : String)
    (h : statusNew cfg act xml tree step lvl fs = some (st, t')) :
    ((p ≠ "back" ∧ ∀ e, e ∈ st.allElements.map (fun q => q.1) →
        e.getAttr "xpath" ≠ some p) →
      getWeightXpath st.elementWeights p = none) ∧
    (∀ w, alGet st.elementWeights p = some w →
      getWeightXpath st.elementWeights p = some w) := by
  obtain ⟨hall, hw, _, _⟩ := statusNew_fields _ _ _ _ _ _ _ _ _ h
  constructor
  · intro ⟨hpb, hpel⟩
    unfold getWeightXpath
    apply initElementWeights_absent _ _ _ hw hpb
    intro e he
    apply hpel
    rw [← hall] at he
    exact he
  · intro w hw2
    exact hw2

end Chactivity
namespace Chactivity

def c10Act : ActivityInfo := { packageName := "com.pkg", activityName := ".Main" }

theorem c10_back_weight_entry_witness :
    (statusNew defaultConfig c10Act "" c2Tree 0 StatusLevel.TEXT none).map
      (fun r =>
        decide (alGet r.1.elementWeights "back" = some Weight.DEFAULT) &&
        decide (getWeightXpath r.1.elementWeights "back" = some Weight.DEFAULT) &&
        decide (alGet (singleBanElement r.1.elementWeights "back") "back" =
          some Weight.DISABLED_FOREVER)) = some true := by
  cases hEq : statusNew defaultConfig c10Act "" c2Tree 0 StatusLevel.TEXT none with
  | none => exact absurd hEq (by decide)
  | some r =>
      obtain ⟨st, t'⟩ := r
      obtain ⟨h1, _, h3, h4⟩ := c10_back_weight_entry defaultConfig c10Act ""
        c2Tree 0 StatusLevel.TEXT none st t' hEq
      simp [h1, h3, h4]

theorem c9_get_weight_fails_loudly_witness :
    (statusNew defaultConfig c10Act "" c2Tree 0 StatusLevel.TEXT none).map
      (fun r => decide (getWeightXpath r.1.elementWeights "nope" = none)) =
      some true := by
  cases hEq : statusNew defaultConfig c10Act "" c2Tree 0 StatusLevel.TEXT none with
  | none => exact absurd hEq (by decide)
  | some r =>
      obtain ⟨st, t'⟩ := r
      have hprem : (statusNew defaultConfig c10Act "" c2Tree 0 StatusLevel.TEXT
          none).map (fun (r : StatusM × XmlNode) => (r.1.allElements.map
            (fun (q : XmlNode × Nat) => q.1)).all
              (fun e => e.getAttr "xpath" != some "nope")) =
          some true := by decide
      rw [hEq] at hprem
      simp only [Option.map_some', Option.some_inj, List.all_eq_true,
        bne_iff_ne, ne_eq] at hprem
      obtain ⟨hn, _⟩ := c9_get_weight_fails_loudly defaultConfig c10Act ""
        c2Tree 0 StatusLevel.TEXT none st t' "nope" hEq
      have h0 := hn ⟨by decide, fun e he => hprem e he⟩
      simp [h0]

theorem getAttr_setAttr_self (n : XmlNode) (k v : String) :
    (n.setAttr k v).getAttr k = some v := by
  simp [XmlNode.setAttr, XmlNode.getAttr, XmlNode.attrs, alGet_alSet_self]

theorem getAttr_setAttr_ne (n : XmlNode) (k k2 v : String) (h : k ≠ k2) :
    (n.setAttr k2 v).getAttr k = n.getAttr k := by
  simp [XmlNode.setAttr, XmlNode.getAttr, XmlNode.attrs]
  exact alGet_alSet_ne _ _ _ _ h

theorem indentNode_near_texts (tg : String) (a : List (String × String))
    (c : List XmlNode) (sibsAfter : List XmlNode) (pos : List Nat)
    (path : String) (depth : Nat) (n' : XmlNode) (cnt : Nat)
    (found : List (List Nat))
    (h : indentNode (.mk tg a c) sibsAfter pos path depth =
      some (n', cnt, found)) :
    ∃ nt, collectNearTexts sibsAfter = some nt ∧
      n'.getAttr "near_texts" = some (jsonDumpsStrList nt) := by
  rw [indentNode] at h
  simp only [Option.pure_def, Option.bind_eq_bind] at h
  cases hic : indentChildren c (pathSteps c) 0 pos path depth with
  | none => rw [hic] at h; simp at h
  | some trip =>
      rw [hic] at h
      obtain ⟨children', childCount, foundC⟩ := trip
      simp only [Option.some_bind] at h
      cases hct : makeElementDescriptionList (.mk tg a c) true true false true with
      | none => rw [hct] at h; simp at h
      | some childTexts0 =>
          rw [hct] at h
          simp only [Option.some_bind] at h
          cases hnt : collectNearTexts sibsAfter with
          | none => rw [hnt] at h; simp at h
          | some nt =>
              rw [hnt] at h
              simp only [Option.some_bind] at h
              refine ⟨nt, rfl, ?_⟩
              cases hex : List.foldlM (fun (acc : List String) c =>
                  if (c.getAttr "depth").isSome = true then some acc
                  else (c.getAttr "child_texts").bind fun v =>
                    (jsonLoadsStrList v).bind fun l => some (acc ++ l))
                  ([] : List String) children' with
              | none => rw [hex] at h; simp at h
              | some extras =>
                  rw [hex] at h
                  simp only [Option.some_bind, Option.some_inj,
                    Prod.mk.injEq] at h
                  obtain ⟨hn, _, _⟩ := h
                  subst hn
                  rw [getAttr_setAttr_ne _ _ _ _ (by decide)]
                  split
                  · rw [getAttr_setAttr_ne _ _ _ _ (by decide),
                      getAttr_setAttr_ne _ _ _ _ (by decide),
                      getAttr_setAttr_ne _ _ _ _ (by decide),
                      getAttr_setAttr_self]
                  · rw [getAttr_setAttr_ne _ _ _ _ (by decide),
                      getAttr_setAttr_self]

/-- C8 amended: in `_indent_xml` each child node's `near_texts` is computed
from its FOLLOWING siblings only (`itersiblings()` with the default
`preceding=False`), not from all siblings: child `j` of a node with child
list `cs` gets exactly the texts collected from `cs.drop (j+1)`. -/
theorem c8_near_texts_following_siblings (cs : List XmlNode)
    (steps : List String) (i : Nat) (pos : List Nat) (path : String)
    (depth : Nat) (cs' : List XmlNode) (cnt : Nat) (found : List (List Nat))
    (h : indentChildren cs steps i pos path depth = some (cs', cnt, found))
    (j : Nat) (hj : j < cs.length) :
    ∃ nt, collectNearTexts (cs.drop (j + 1)) = some nt ∧
      ∃ h2 : j < cs'.length,
        (cs'.get ⟨j, h2⟩).getAttr "near_texts" = some (jsonDumpsStrList nt) := by
  induction cs generalizing steps i cs' cnt found j with
  | nil => exact absurd hj (by simp)
  | cons c rest ih =>
      rw [indentChildren] at h
      cases hin : indentNode c rest (pos ++ [i])
          (path ++ "/" ++ steps.headD "") (depth + 1) with
      | none => rw [hin] at h; simp at h
      | some trip =>
          rw [hin] at h
          obtain ⟨c1, cnt1, found1⟩ := trip
          cases hrest : indentChildren rest steps.tail (i + 1) pos path depth with
          | none => rw [hrest] at h; simp at h
          | some trip2 =>
              rw [hrest] at h
              obtain ⟨rest', cnt2, found2⟩ := trip2
              simp only [Option.some_inj, Prod.mk.injEq] at h
              obtain ⟨hcs', _, _⟩ := h
              subst hcs'
              cases j with
              | zero =>
                  obtain ⟨tg, a, cc⟩ := c
                  obtain ⟨nt, hnt, hattr⟩ := indentNode_near_texts tg a cc rest
                    (pos ++ [i]) (path ++ "/" ++ steps.headD "") (depth + 1)
                    c1 cnt1 found1 hin
                  exact ⟨nt, hnt, by simp, hattr⟩
              | succ j' =>
                  have hj' : j' < rest.length := by
                    simpa using Nat.lt_of_succ_lt_succ hj
                  obtain ⟨nt, hnt, h2, hattr⟩ := ih steps.tail (i + 1) rest' cnt2
                    found2 hrest j' hj'
                  exact ⟨nt, hnt, by simpa using Nat.succ_lt_succ h2,
                    by simpa using hattr⟩

theorem c8_near_texts_following_siblings_witness :
    ∃ cs2 cnt found, indentChildren c8Tree.children (pathSteps c8Tree.children)
        0 [] "/node" 0 = some (cs2, cnt, found) ∧
      ∃ nt, collectNearTexts (c8Tree.children.drop 1) = some nt ∧
        ∃ h2 : 0 < cs2.length,
          (cs2.get ⟨0, h2⟩).getAttr "near_texts" =
            some (jsonDumpsStrList nt) := by
  cases hEq : indentChildren c8Tree.children (pathSteps c8Tree.children)
      0 [] "/node" 0 with
  | none => exact absurd hEq (by decide)
  | some r =>
      obtain ⟨cs2, cnt, found⟩ := r
      exact ⟨cs2, cnt, found, rfl,
        c8_near_texts_following_siblings c8Tree.children
          (pathSteps c8Tree.children) 0 [] "/node" 0 cs2 cnt found hEq 0
          (by decide)⟩

/-! ## ActivityManager global action weights (activity_status_memory.py:478-615)

Only the fields the claims touch; `operated_elements_description` (a Python
set of strings) is modelled as an insertion-ordered duplicate-free list. -/

instance : LawfulBEq XmlNode where
  eq_of_beq h := XmlNode.beq_eq _ _ h
  rfl := XmlNode.beq_refl _

structure ManagerM : Type where
  actionWeights : List (String × WeightType)
  invalidActions : List String
  filledTexts : List (String × String)
  operatedElementsDescription : List String
deriving DecidableEq, Repr

/-- `ActivityManager.get_action_key` (activity_status_memory.py:535-541).
`element.attrib["xpath"]` raises `KeyError` on absence, hence `Option`. -/
def getActionKey (element : XmlNode) (command : String) : Option String := do
  let xp ← element.getAttr "xpath"
  let desc ← makeElementDescription element false false false
  pure (filterXpathRemoveIndex xp ++ desc ++ command)

/-- `ActivityManager._set_action_weight` (activity_status_memory.py:543-555). -/
def setActionWeight (m : ManagerM) (key : String) (weight : WeightType) :
    ManagerM :=
  let p := alSetdefault m.actionWeights key Weight.DEFAULT
  let currentWeight := p.1
  let newWeight :=
    if weight ∈ SPECIAL_WEIGHT_SKIP_CHECK then weight
    else if currentWeight ∈ SPECIAL_WEIGHT_SKIP_CHECK then currentWeight
    else min Weight.MAX (max Weight.MIN weight)
  { m with actionWeights := alSet p.2 key newWeight }

/-- `ActivityManager.update_action_weight` (activity_status_memory.py:557-561). -/
def updateActionWeight (m : ManagerM) (element : XmlNode) (command : String)
    (weight : WeightType) : Option ManagerM :=
  (getActionKey element command).map (fun key => setActionWeight m key weight)

/-- `ActivityManager.add_action_weight` (activity_status_memory.py:563-571):
`setdefault` first (this may create the entry), then the clamped update. -/
def addActionWeight (m : ManagerM) (element : XmlNode) (command : String)
    (weight : WeightType) : Option ManagerM := do
  let key ← getActionKey element command
  let p := alSetdefault m.actionWeights key Weight.DEFAULT
  updateActionWeight { m with actionWeights := p.2 } element command (p.1 + weight)

/-- `ActivityManager.on_action_action` (activity_status_memory.py:573-574). -/
def onActionAction (m : ManagerM) (element : XmlNode) (command : String) :
    Option ManagerM :=
  addActionWeight m element command Weight.EACH_ACTION_ON_GLOBAL

/-- `ActivityManager.on_action_non_action` (activity_status_memory.py:576-579):
a no-op when the action key is not yet in the global table. -/
def onActionNonAction (m : ManagerM) (element : XmlNode) (command : String) :
    Option ManagerM := do
  let key ← getActionKey element command
  if (alGet m.actionWeights key).isNone then pure m
  else addActionWeight m element command Weight.EACH_NON_ACTION_ON_GLOBAL

/-- `PersistKnowledge.add_invalid_action` (persist_knowledge.py:171-176). -/
def addInvalidAction (invalid : List String) (uid : String) : List String :=
  if uid ∈ invalid then invalid else invalid ++ [uid]

/-- `ActivityManager.global_ban_action` with a concrete command
(activity_status_memory.py:592-603). -/
def globalBanActionCmd (m : ManagerM) (element : XmlNode) (command : String) :
    Option ManagerM := do
  let key ← getActionKey element command
  let m1 := { m with invalidActions := addInvalidAction m.invalidActions key }
  updateActionWeight m1 element command Weight.DISABLED_FOREVER

/-- `ActivityManager.global_ban_action` (activity_status_memory.py:592-603):
`command = None` bans every registered command for the element. -/
def globalBanAction (m : ManagerM) (element : XmlNode) :
    Option String → Option ManagerM
  | some command => globalBanActionCmd m element command
  | none => allCommandNames.foldlM
      (fun m c => globalBanActionCmd m element c) m

/-- `ActivityManager.add_operated_element` (activity_status_memory.py:492-495). -/
def addOperatedElement (m : ManagerM) (element : XmlNode) : Option ManagerM :=
  (makeElementDescription element false false true).map (fun d =>
    { m with operatedElementsDescription :=
        if d ∈ m.operatedElementsDescription then m.operatedElementsDescription
        else m.operatedElementsDescription ++ [d] })

/-- `ActivityManager.add_filled_text` (activity_status_memory.py:609-610). -/
def addFilledText (m : ManagerM) (desc text : String) : ManagerM :=
  { m with filledTexts := alSet m.filledTexts desc text }

/-! ## Status.on_element_action (activity_status_memory.py:263-316),
split into its three sequential stages. -/

/-- The `max_element` scan of the loop-detection block
(activity_status_memory.py:288-293): first key of strictly maximal depth,
starting from `max_depth = -1` (`None` iff the dict is empty). -/
def maxDepthElement (l : List (String × Nat)) : Option String :=
  (l.foldl (fun (acc : Option String × Int) (p : String × Nat) =>
      if (p.2 : Int) > acc.2 then (some p.1, (p.2 : Int)) else acc)
    ((none : Option String), (-1 : Int))).1

/-- Lines 276-285: operated-element bookkeeping, `elements_to_this`,
filled-text recording for `input`, and the `element_depths` write.  Membership
in `elements_to_this` is structural (lxml compares by identity; the claims do
not touch this field). -/
def oeaBookkeeping (st : StatusM) (m : ManagerM) (elem : XmlNode)
    (stepNumber : Nat) (command : String) (extra : List (String × String)) :
    Option (StatusM × ManagerM × String) := do
  let m ← addOperatedElement m elem
  let ett : List XmlNode :=
    if st.elementsToThis.contains elem then st.elementsToThis
    else st.elementsToThis ++ [elem]
  let st := { st with elementsToThis := ett }
  let (st, m) ←
    if command = "input" then do
      let desc ← makeElementDescription elem false false true
      let text ← alGet extra "text"
      pure ({ st with hasInputed := true }, addFilledText m desc text)
    else pure (st, m)
  let xpath ← elem.getAttr "xpath"
  let st := { st with elementDepths := alSet st.elementDepths xpath stepNumber }
  pure (st, m, xpath)

/-- Lines 286-296: the loop-detection penalties. -/
def oeaLoopDetect (st newSt : StatusM) (xpath : String) (useful : Bool) :
    Option (StatusM × StatusM) :=
  if useful = true ∧ newSt.stepCount < st.stepCount then do
    let newSt ←
      match maxDepthElement newSt.elementDepths with
      | some me => do
          let ws ← addElementWeight newSt.elementWeights me Weight.ENTER_CIRCLE
          pure { newSt with elementWeights := ws }
      | none => pure newSt
    let ws2 ← addElementWeight st.elementWeights xpath Weight.EXIT_CIRCLE
    pure ({ st with elementWeights := ws2 }, newSt)
  else pure (st, newSt)

/-- One iteration of the group-update loop (lines 298-316). -/
def oeaGroupStep (prompt command : String) (useful : Bool)
    (acc : StatusM × ManagerM) (element : XmlNode) :
    Option (StatusM × ManagerM) := do
  let (st, m) := acc
  let currentXpath ← element.getAttr "xpath"
  let cw ← alGet st.elementWeights currentXpath
  if cw ∈ SPECIAL_WEIGHT_SKIP_CHECK then pure (st, m)
  else do
    let eprompt ← element.getAttr "prompt"
    if eprompt = prompt then
      if useful then do
        let ws ← addElementWeight st.elementWeights currentXpath Weight.EACH_ACTION
        let m ← onActionAction m element command
        pure ({ st with elementWeights := ws }, m)
      else do
        let m ← globalBanActionCmd m element command
        pure (st, m)
    else do
      let ws ← addElementWeight st.elementWeights currentXpath Weight.EACH_NON_ACTION
      let m ← onActionNonAction m element command
      pure ({ st with elementWeights := ws }, m)

/-- The `for element, _ in self._all_elements` loop (lines 298-316). -/
def oeaGroupLoop (st : StatusM) (m : ManagerM) (prompt command : String)
    (useful : Bool) : Option (StatusM × ManagerM) :=
  (st.allElements.map (fun (q : XmlNode × Nat) => q.1)).foldlM
    (oeaGroupStep prompt command useful) (st, m)

/-- `Status.on_element_action` (activity_status_memory.py:263-316).  `self`
and `new_status` are modelled as distinct states (the production caller always
passes distinct Status objects). -/
def onElementAction (st newSt : StatusM) (m : ManagerM) (elem : XmlNode)
    (stepNumber : Nat) (command : String) (useful : Bool)
    (extra : List (String × String)) :
    Option (StatusM × StatusM × ManagerM) := do
  let (st1, m1, xpath) ← oeaBookkeeping st m elem stepNumber command extra
  let (st2, newSt2) ← oeaLoopDetect st1 newSt xpath useful
  let prompt ← elem.getAttr "prompt"
  let (st3, m3) ← oeaGroupLoop st2 m1 prompt command useful
  pure (st3, newSt2, m3)

def c1Elem : XmlNode :=
  .mk "node" [("class", "android.widget.Button"), ("clickable", "true"),
    ("xpath", "/root/btn"), ("prompt", "a button")] []

def c1St : StatusM :=
  { hash := "h1", stepCount := 3, xml := "", xmlTree := c1Elem,
    allElements := [(c1Elem, 0)],
    elementWeights := [("back", Weight.DEFAULT), ("/root/btn", Weight.DEFAULT)],
    elementDepths := [], elementsToThis := [], fromStatus := none,
    hasInputed := false }

def c1NewSt : StatusM :=
  { hash := "h2", stepCount := 5, xml := "", xmlTree := c1Elem,
    allElements := [], elementWeights := [("back", Weight.DEFAULT)],
    elementDepths := [], elementsToThis := [], fromStatus := none,
    hasInputed := false }

def c1Mgr : ManagerM :=
  { actionWeights := [], invalidActions := [], filledTexts := [],
    operatedElementsDescription := [] }

theorem alGet_append_left {α : Type} (l l2 : List (String × α)) (k : String)
    (v : α) (h : alGet l k = some v) : alGet (l ++ l2) k = some v := by
  induction l with
  | nil => simp [alGet] at h
  | cons hd tl ih =>
      obtain ⟨k0, v0⟩ := hd
      rw [alGet] at h
      rw [List.cons_append, alGet]
      by_cases h0 : k0 = k
      · simpa [h0] using h
      · rw [if_neg h0] at h ⊢
        exact ih h

theorem alSetdefault_of_mem {α : Type} (l : List (String × α)) (k : String)
    (d v : α) (h : alGet l k = some v) : alSetdefault l k d = (v, l) := by
  rw [alSetdefault, h]

theorem alGet_alSetdefault_snd {α : Type} (l : List (String × α)) (k k2 : String)
    (d v : α) (h : alGet l k = some v) : alGet (alSetdefault l k2 d).2 k = some v := by
  rw [alSetdefault]
  cases h2 : alGet l k2 with
  | some w => exact h
  | none => exact alGet_append_left l [(k2, d)] k v h

theorem setActionWeight_disabled (m : ManagerM) (key k2 : String)
    (w : WeightType)
    (h : alGet m.actionWeights key = some Weight.DISABLED_FOREVER) :
    alGet (setActionWeight m k2 w).actionWeights key =
      some Weight.DISABLED_FOREVER := by
  rw [setActionWeight]
  by_cases hk : k2 = key
  · subst hk
    rw [alSetdefault_of_mem _ _ _ _ h]
    simp only
    by_cases hw : w ∈ SPECIAL_WEIGHT_SKIP_CHECK
    · rw [if_pos hw]
      have : w = Weight.DISABLED_FOREVER := by
        simpa [SPECIAL_WEIGHT_SKIP_CHECK] using hw
      rw [this, alGet_alSet_self]
    · rw [if_neg hw, if_pos (by simp [SPECIAL_WEIGHT_SKIP_CHECK]),
        alGet_alSet_self]
  · have hne : key ≠ k2 := fun he => hk he.symm
    simp only
    rw [alGet_alSet_ne _ _ _ _ hne]
    exact alGet_alSetdefault_snd _ _ _ _ _ h

theorem setActionWeight_invalid (m : ManagerM) (key : String) (w : WeightType) :
    (setActionWeight m key w).invalidActions = m.invalidActions := rfl

theorem mem_addInvalidAction_self (l : List String) (u : String) :
    u ∈ addInvalidAction l u := by
  rw [addInvalidAction]
  by_cases h : u ∈ l
  · rwa [if_pos h]
  · rw [if_neg h]
    simp

theorem mem_addInvalidAction_of_mem (l : List String) (u k : String)
    (h : k ∈ l) : k ∈ addInvalidAction l u := by
  rw [addInvalidAction]
  by_cases h2 : u ∈ l
  · rwa [if_pos h2]
  · rw [if_neg h2]
    exact List.mem_append_left _ h

/-- The manager invariant carried through the group loop: the action key is
recorded invalid and globally disabled. -/
def mgrBanned (m : ManagerM) (key : String) : Prop :=
  key ∈ m.invalidActions ∧
    alGet m.actionWeights key = some Weight.DISABLED_FOREVER

theorem addActionWeight_ban (m m2 : ManagerM) (el : XmlNode) (cmd : String)
    (w : WeightType) (key : String)
    (h : addActionWeight m el cmd w = some m2) (hb : mgrBanned m key) :
    mgrBanned m2 key := by
  rw [addActionWeight] at h
  simp only [Option.pure_def, Option.bind_eq_bind] at h
  cases hk : getActionKey el cmd with
  | none => rw [hk] at h; simp at h
  | some k2 =>
      rw [hk] at h
      simp only [Option.some_bind, updateActionWeight, hk, Option.map_some',
        Option.some_inj] at h
      subst h
      obtain ⟨hi, hw⟩ := hb
      constructor
      · exact hi
      · exact setActionWeight_disabled
          { m with actionWeights := (alSetdefault m.actionWeights k2 Weight.DEFAULT).2 }
          key k2 _ (alGet_alSetdefault_snd _ _ _ _ _ hw)

theorem onActionAction_ban (m m2 : ManagerM) (el : XmlNode) (cmd : String)
    (key : String) (h : onActionAction m el cmd = some m2)
    (hb : mgrBanned m key) : mgrBanned m2 key :=
  addActionWeight_ban m m2 el cmd _ key h hb

theorem onActionNonAction_ban (m m2 : ManagerM) (el : XmlNode) (cmd : String)
    (key : String) (h : onActionNonAction m el cmd = some m2)
    (hb : mgrBanned m key) : mgrBanned m2 key := by
  rw [onActionNonAction] at h
  simp only [Option.pure_def, Option.bind_eq_bind] at h
  cases hk : getActionKey el cmd with
  | none => rw [hk] at h; simp at h
  | some k2 =>
      rw [hk] at h
      simp only [Option.some_bind] at h
      split at h
      · obtain rfl := Option.some_inj.mp h
        exact hb
      · exact addActionWeight_ban m m2 el cmd _ key h hb

theorem globalBanActionCmd_ban (m m2 : ManagerM) (el : XmlNode) (cmd : String)
    (key : String) (h : globalBanActionCmd m el cmd = some m2)
    (hb : mgrBanned m key) : mgrBanned m2 key := by
  rw [globalBanActionCmd] at h
  simp only [Option.pure_def, Option.bind_eq_bind] at h
  cases hk : getActionKey el cmd with
  | none => rw [hk] at h; simp at h
  | some k2 =>
      rw [hk] at h
      simp only [Option.some_bind, updateActionWeight, hk, Option.map_some',
        Option.some_inj] at h
      subst h
      obtain ⟨hi, hw⟩ := hb
      constructor
      · exact mem_addInvalidAction_of_mem _ _ _ hi
      · exact setActionWeight_disabled
          { m with invalidActions := addInvalidAction m.invalidActions k2 }
          key k2 _ hw

theorem globalBanActionCmd_bans (m m2 : ManagerM) (el : XmlNode) (cmd : String)
    (h : globalBanActionCmd m el cmd = some m2) :
    ∃ key, getActionKey el cmd = some key ∧ mgrBanned m2 key := by
  rw [globalBanActionCmd] at h
  simp only [Option.pure_def, Option.bind_eq_bind] at h
  cases hk : getActionKey el cmd with
  | none => rw [hk] at h; simp at h
  | some k2 =>
      rw [hk] at h
      simp only [Option.some_bind, updateActionWeight, hk, Option.map_some',
        Option.some_inj] at h
      subst h
      refine ⟨k2, rfl, ?_, ?_⟩
      · exact mem_addInvalidAction_self _ _
      · rw [setActionWeight]
        simp only
        rw [if_pos (by simp [SPECIAL_WEIGHT_SKIP_CHECK]), alGet_alSet_self]

theorem oeaGroupStep_ban (pr cmd : String) (u : Bool) (st : StatusM)
    (m : ManagerM) (el : XmlNode) (st2 : StatusM) (m2 : ManagerM) (key : String)
    (h : oeaGroupStep pr cmd u (st, m) el = some (st2, m2))
    (hb : mgrBanned m key) : mgrBanned m2 key := by
  rw [oeaGroupStep] at h
  simp only [Option.pure_def, Option.bind_eq_bind] at h
  cases hx : el.getAttr "xpath" with
  | none => rw [hx] at h; simp at h
  | some cx =>
      rw [hx] at h
      simp only [Option.some_bind] at h
      cases hcw : alGet st.elementWeights cx with
      | none => rw [hcw] at h; simp at h
      | some cw =>
          rw [hcw] at h
          simp only [Option.some_bind] at h
          split at h
          · obtain ⟨_, rfl⟩ := Prod.mk.injEq .. ▸ Option.some_inj.mp h
            exact hb
          · cases hp : el.getAttr "prompt" with
            | none => rw [hp] at h; simp at h
            | some ep =>
                rw [hp] at h
                simp only [Option.some_bind] at h
                split at h
                · split at h
                  · cases haw : addElementWeight st.elementWeights cx
                        Weight.EACH_ACTION with
                    | none => rw [haw] at h; simp at h
                    | some ws =>
                        rw [haw] at h
                        simp only [Option.some_bind] at h
                        cases hoa : onActionAction m el cmd with
                        | none => rw [hoa] at h; simp at h
                        | some m3 =>
                            rw [hoa] at h
                            simp only [Option.some_bind, Option.some_inj,
                              Prod.mk.injEq] at h
                            obtain ⟨_, rfl⟩ := h
                            exact onActionAction_ban m m3 el cmd key hoa hb
                  · cases hgb : globalBanActionCmd m el cmd with
                    | none => rw [hgb] at h; simp at h
                    | some m3 =>
                        rw [hgb] at h
                        simp only [Option.some_bind, Option.some_inj,
                          Prod.mk.injEq] at h
                        obtain ⟨_, rfl⟩ := h
                        exact globalBanActionCmd_ban m m3 el cmd key hgb hb
                · cases haw : addElementWeight st.elementWeights cx
                      Weight.EACH_NON_ACTION with
                  | none => rw [haw] at h; simp at h
                  | some ws =>
                      rw [haw] at h
                      simp only [Option.some_bind] at h
                      cases hna : onActionNonAction m el cmd with
                      | none => rw [hna] at h; simp at h
                      | some m3 =>
                          rw [hna] at h
                          simp only [Option.some_bind, Option.some_inj,
                            Prod.mk.injEq] at h
                          obtain ⟨_, rfl⟩ := h
                          exact onActionNonAction_ban m m3 el cmd key hna hb

theorem oeaFold_ban (l : List XmlNode) (pr cmd : String) (u : Bool)
    (st : StatusM) (m : ManagerM) (st' : StatusM) (m' : ManagerM) (key : String)
    (h : l.foldlM (oeaGroupStep pr cmd u) (st, m) = some (st', m'))
    (hb : mgrBanned m key) : mgrBanned m' key := by
  induction l generalizing st m with
  | nil =>
      simp only [List.foldlM, pure, Option.some_inj, Prod.mk.injEq] at h
      obtain ⟨_, rfl⟩ := h
      exact hb
  | cons a rest ih =>
      simp only [List.foldlM, Option.pure_def, Option.bind_eq_bind] at h
      cases hstep : oeaGroupStep pr cmd u (st, m) a with
      | none => rw [hstep] at h; simp at h
      | some acc2 =>
          rw [hstep] at h
          obtain ⟨stA, mA⟩ := acc2
          simp only [Option.some_bind] at h
          exact ih stA mA h (oeaGroupStep_ban pr cmd u st m a stA mA key hstep hb)

theorem newElementWeight_nonneg (c v : WeightType) (hc : 0 ≤ c)
    (hv : v ≠ Weight.DISABLED_FOREVER) : 0 ≤ newElementWeight (some c) v := by
  have hcne : ¬ (c = Weight.DISABLED_FOREVER) := by
    intro he
    rw [he] at hc
    norm_num [Weight.DISABLED_FOREVER] at hc
  simp only [newElementWeight, SPECIAL_WEIGHT_SKIP_CHECK, List.mem_singleton]
  rw [if_neg hv, if_neg hcne]
  refine le_min (by norm_num [Weight.MAX]) ?_
  exact le_trans (by norm_num [Weight.MIN]) (le_max_left _ _)

theorem oeaGroupStep_weight (pr cmd : String) (st : StatusM) (m : ManagerM)
    (el : XmlNode) (st2 : StatusM) (m2 : ManagerM) (x : String) (w : WeightType)
    (h : oeaGroupStep pr cmd false (st, m) el = some (st2, m2))
    (hw : alGet st.elementWeights x = some w) (hw0 : 0 ≤ w) :
    ∃ w2, alGet st2.elementWeights x = some w2 ∧ 0 ≤ w2 := by
  rw [oeaGroupStep] at h
  simp only [Option.pure_def, Option.bind_eq_bind] at h
  cases hx : el.getAttr "xpath" with
  | none => rw [hx] at h; simp at h
  | some cx =>
      rw [hx] at h
      simp only [Option.some_bind] at h
      cases hcw : alGet st.elementWeights cx with
      | none => rw [hcw] at h; simp at h
      | some cw =>
          rw [hcw] at h
          simp only [Option.some_bind] at h
          split at h
          · obtain ⟨rfl, _⟩ := Prod.mk.injEq .. ▸ Option.some_inj.mp h
            exact ⟨w, hw, hw0⟩
          · cases hp : el.getAttr "prompt" with
            | none => rw [hp] at h; simp at h
            | some ep =>
                rw [hp] at h
                simp only [Option.some_bind] at h
                split at h
                · rw [if_neg Bool.false_ne_true] at h
                  cases hgb : globalBanActionCmd m el cmd with
                  | none => rw [hgb] at h; simp at h
                  | some m3 =>
                      rw [hgb] at h
                      simp only [Option.some_bind, Option.some_inj,
                        Prod.mk.injEq] at h
                      obtain ⟨rfl, _⟩ := h
                      exact ⟨w, hw, hw0⟩
                · cases haw : addElementWeight st.elementWeights cx
                      Weight.EACH_NON_ACTION with
                  | none => rw [haw] at h; simp at h
                  | some ws =>
                      rw [haw] at h
                      simp only [Option.some_bind] at h
                      cases hna : onActionNonAction m el cmd with
                      | none => rw [hna] at h; simp at h
                      | some m3 =>
                          rw [hna] at h
                          simp only [Option.some_bind, Option.some_inj,
                            Prod.mk.injEq] at h
                          obtain ⟨rfl, _⟩ := h
                          rw [addElementWeight, hcw, Option.map_some',
                            Option.some_inj] at haw
                          subst haw
                          simp only [updateElementWeight, hcw]
                          by_cases hxc : x = cx
                          · subst hxc
                            have hcw2 : cw = w := by
                              rw [hcw] at hw
                              exact Option.some_inj.mp hw
                            have hw0c : (0 : WeightType) ≤ cw := by
                              rw [hcw2]
                              exact hw0
                            rw [alGet_alSet_self]
                            refine ⟨_, rfl, ?_⟩
                            apply newElementWeight_nonneg _ _ hw0c
                            intro he2
                            rw [Weight.EACH_NON_ACTION,
                              Weight.DISABLED_FOREVER] at he2
                            have h5 : cw = -1005 := by linarith
                            rw [h5] at hw0c
                            norm_num at hw0c
                          · rw [alGet_alSet_ne _ _ _ _ hxc]
                            exact ⟨w, hw, hw0⟩

theorem oeaFold_bans_matching (l : List XmlNode) (pr cmd : String)
    (st : StatusM) (m : ManagerM) (st' : StatusM) (m' : ManagerM)
    (h : l.foldlM (oeaGroupStep pr cmd false) (st, m) = some (st', m'))
    (e : XmlNode) (he : e ∈ l) (hpr : e.getAttr "prompt" = some pr)
    (ex : String) (hex : e.getAttr "xpath" = some ex)
    (w : WeightType) (hw : alGet st.elementWeights ex = some w) (hw0 : 0 ≤ w) :
    ∃ key, getActionKey e cmd = some key ∧ mgrBanned m' key := by
  induction l generalizing st m w with
  | nil => exact absurd he (List.not_mem_nil e)
  | cons a rest ih =>
      simp only [List.foldlM, Option.pure_def, Option.bind_eq_bind] at h
      cases hstep : oeaGroupStep pr cmd false (st, m) a with
      | none => rw [hstep] at h; simp at h
      | some acc2 =>
          rw [hstep] at h
          obtain ⟨stA, mA⟩ := acc2
          simp only [Option.some_bind] at h
          rcases List.mem_cons.mp he with rfl | hrest
          · have hwns : w ∉ SPECIAL_WEIGHT_SKIP_CHECK := by
              simp only [SPECIAL_WEIGHT_SKIP_CHECK, List.mem_singleton]
              intro he2
              rw [Weight.DISABLED_FOREVER] at he2
              rw [he2] at hw0
              norm_num at hw0
            rw [oeaGroupStep] at hstep
            simp only [Option.pure_def, Option.bind_eq_bind] at hstep
            rw [hex] at hstep
            simp only [Option.some_bind] at hstep
            rw [hw] at hstep
            simp only [Option.some_bind] at hstep
            rw [if_neg hwns, hpr] at hstep
            simp only [Option.some_bind] at hstep
            rw [if_pos trivial, if_neg Bool.false_ne_true] at hstep
            cases hgb : globalBanActionCmd m e cmd with
            | none => rw [hgb] at hstep; simp at hstep
            | some mB =>
                rw [hgb] at hstep
                simp only [Option.some_bind, Option.some_inj,
                  Prod.mk.injEq] at hstep
                obtain ⟨_, rfl⟩ := hstep
                obtain ⟨key, hkey, hban⟩ := globalBanActionCmd_bans m mB e cmd hgb
                exact ⟨key, hkey,
                  oeaFold_ban rest pr cmd false stA mB st' m' key h hban⟩
          · obtain ⟨w2, hw2, hw02⟩ :=
              oeaGroupStep_weight pr cmd st m a stA mA ex w hstep hw hw0
            exact ih stA mA h hrest w2 hw2 hw02

theorem oeaBookkeeping_fields (st : StatusM) (m : ManagerM) (elem : XmlNode)
    (step : Nat) (cmd : String) (extra : List (String × String))
    (st1 : StatusM) (m1 : ManagerM) (xp : String)
    (h : oeaBookkeeping st m elem step cmd extra = some (st1, m1, xp)) :
    st1.elementWeights = st.elementWeights ∧
    st1.allElements = st.allElements ∧
    st1.stepCount = st.stepCount ∧
    elem.getAttr "xpath" = some xp := by
  rw [oeaBookkeeping] at h
  simp only [Option.pure_def, Option.bind_eq_bind] at h
  cases hop : addOperatedElement m elem with
  | none => rw [hop] at h; simp at h
  | some m0 =>
      rw [hop] at h
      simp only [Option.some_bind] at h
      split at h
      · cases hd : makeElementDescription elem false false true with
        | none => rw [hd] at h; simp at h
        | some desc =>
            rw [hd] at h
            simp only [Option.some_bind] at h
            cases ht : alGet extra "text" with
            | none => rw [ht] at h; simp at h
            | some txt =>
                rw [ht] at h
                simp only [Option.some_bind] at h
                cases hx : elem.getAttr "xpath" with
                | none => rw [hx] at h; simp at h
                | some xp0 =>
                    rw [hx] at h
                    simp only [Option.some_bind, Option.some_inj,
                      Prod.mk.injEq] at h
                    obtain ⟨hst, _, hxp⟩ := h
                    subst hxp
                    rw [← hst]
                    exact ⟨rfl, rfl, rfl, rfl⟩
      · cases hx : elem.getAttr "xpath" with
        | none => rw [hx] at h; simp at h
        | some xp0 =>
            rw [hx] at h
            simp only [Option.some_bind, Option.some_inj, Prod.mk.injEq] at h
            obtain ⟨hst, _, hxp⟩ := h
            subst hxp
            rw [← hst]
            exact ⟨rfl, rfl, rfl, rfl⟩

/-- C1 amended: with `useful == false`, every key element of the acting Status
whose prompt equals the chosen element's prompt and whose stored weight is an
ordinary (non-negative) one is globally banned by `on_element_action`: its
action key is recorded in the persistent invalid-action store and its global
action weight is set to DISABLED_FOREVER. -/
theorem c1_not_useful_matching_globally_banned (st newSt : StatusM)
    (m : ManagerM) (elem e : XmlNode) (step : Nat) (cmd prompt : String)
    (extra : List (String × String)) (st' newSt' : StatusM) (m' : ManagerM)
    (h : onElementAction st newSt m elem step cmd false extra =
      some (st', newSt', m'))
    (he : e ∈ st.allElements.map (fun (q : XmlNode × Nat) => q.1))
    (hpr : e.getAttr "prompt" = some prompt)
    (hep : elem.getAttr "prompt" = some prompt)
    (ex : String) (hex : e.getAttr "xpath" = some ex)
    (w : WeightType) (hw : alGet st.elementWeights ex = some w)
    (hw0 : 0 ≤ w) :
    ∃ key, getActionKey e cmd = some key ∧ key ∈ m'.invalidActions ∧
      alGet m'.actionWeights key = some Weight.DISABLED_FOREVER := by
  rw [onElementAction] at h
  simp only [Option.pure_def, Option.bind_eq_bind] at h
  cases hbk : oeaBookkeeping st m elem step cmd extra with
  | none => rw [hbk] at h; simp at h
  | some trip =>
      rw [hbk] at h
      obtain ⟨st1, m1, xp⟩ := trip
      simp only [Option.some_bind] at h
      rw [oeaLoopDetect, if_neg (by simp)] at h
      simp only [Option.pure_def, Option.some_bind] at h
      rw [hep] at h
      simp only [Option.some_bind] at h
      cases hgl : oeaGroupLoop st1 m1 prompt cmd false with
      | none => rw [hgl] at h; simp at h
      | some pr2 =>
          rw [hgl] at h
          obtain ⟨st3, m3⟩ := pr2
          simp only [Option.some_bind, Option.some_inj, Prod.mk.injEq] at h
          obtain ⟨_, _, hm⟩ := h
          obtain ⟨hW, hA, _, _⟩ := oeaBookkeeping_fields st m elem step cmd
            extra st1 m1 xp hbk
          rw [oeaGroupLoop, hA] at hgl
          have hw1 : alGet st1.elementWeights ex = some w := by
            rw [hW]
            exact hw
          obtain ⟨key, hkey, hban⟩ := oeaFold_bans_matching
            (st.allElements.map (fun (q : XmlNode × Nat) => q.1)) prompt cmd
            st1 m1 st3 m3 hgl e he hpr ex hex w hw1 hw0
          subst hm
          exact ⟨key, hkey, hban.1, hban.2⟩

theorem c1_not_useful_ban_counterexample :
    (onElementAction c1St c1NewSt c1Mgr c1Elem 4 "click" false []).map
      (fun r => (decide (r.2.2.invalidActions = []),
        r.2.2.actionWeights.any (fun p => p.2 == Weight.DISABLED_FOREVER))) =
      some (false, true) := by decide

theorem c1_not_useful_matching_globally_banned_witness :
    ∃ st' newSt' m',
      onElementAction c1St c1NewSt c1Mgr c1Elem 4 "click" false [] =
        some (st', newSt', m') ∧
      ∃ key, getActionKey c1Elem "click" = some key ∧
        key ∈ m'.invalidActions ∧
        alGet m'.actionWeights key = some Weight.DISABLED_FOREVER := by
  cases hEq : onElementAction c1St c1NewSt c1Mgr c1Elem 4 "click" false [] with
  | none => exact absurd hEq (by decide)
  | some r =>
      obtain ⟨a, b, c⟩ := r
      exact ⟨a, b, c, rfl,
        c1_not_useful_matching_globally_banned c1St c1NewSt c1Mgr c1Elem c1Elem
          4 "click" "a button" [] a b c hEq (by decide) (by decide) (by decide)
          "/root/btn" (by decide) Weight.DEFAULT (by decide) (by decide)⟩

/-- C7: in `on_element_action` the loop penalties fire exactly when
`useful` holds and the resulting status's creation step count is strictly
below the acting status's: then the first maximal-depth entry of the
resulting status's `element_depths` receives ENTER_CIRCLE there, the chosen
element receives EXIT_CIRCLE on the acting status before the group loop, and
otherwise neither status receives a penalty (the resulting status is
untouched and the group loop starts from the acting status unchanged). -/
theorem c7_loop_penalties (st newSt : StatusM) (m : ManagerM) (elem : XmlNode)
    (step : Nat) (cmd : String) (useful : Bool)
    (extra : List (String × String)) (st' newSt' : StatusM) (m' : ManagerM)
    (h : onElementAction st newSt m elem step cmd useful extra =
      some (st', newSt', m')) :
    ∃ st1 m1 xpath prompt,
      oeaBookkeeping st m elem step cmd extra = some (st1, m1, xpath) ∧
      elem.getAttr "prompt" = some prompt ∧
      st1.stepCount = st.stepCount ∧
      st1.elementWeights = st.elementWeights ∧
      (if useful = true ∧ newSt.stepCount < st.stepCount then
        ((maxDepthElement newSt.elementDepths = none ∧ newSt' = newSt) ∨
         (∃ me ws, maxDepthElement newSt.elementDepths = some me ∧
           addElementWeight newSt.elementWeights me Weight.ENTER_CIRCLE =
             some ws ∧
           newSt' = { newSt with elementWeights := ws })) ∧
        (∃ ws2, addElementWeight st1.elementWeights xpath Weight.EXIT_CIRCLE =
            some ws2 ∧
          oeaGroupLoop { st1 with elementWeights := ws2 } m1 prompt cmd
            useful = some (st', m'))
      else
        newSt' = newSt ∧
        oeaGroupLoop st1 m1 prompt cmd useful = some (st', m')) := by
  rw [onElementAction] at h
  simp only [Option.pure_def, Option.bind_eq_bind] at h
  cases hbk : oeaBookkeeping st m elem step cmd extra with
  | none => rw [hbk] at h; simp at h
  | some trip =>
      rw [hbk] at h
      obtain ⟨st1, m1, xp⟩ := trip
      simp only [Option.some_bind] at h
      cases hld : oeaLoopDetect st1 newSt xp useful with
      | none => rw [hld] at h; simp at h
      | some pld =>
          rw [hld] at h
          obtain ⟨st2, newSt2⟩ := pld
          simp only [Option.some_bind] at h
          cases hp : elem.getAttr "prompt" with
          | none => rw [hp] at h; simp at h
          | some pr =>
              rw [hp] at h
              simp only [Option.some_bind] at h
              cases hgl : oeaGroupLoop st2 m1 pr cmd useful with
              | none => rw [hgl] at h; simp at h
              | some pgl =>
                  rw [hgl] at h
                  obtain ⟨st3, m3⟩ := pgl
                  simp only [Option.some_bind, Option.some_inj,
                    Prod.mk.injEq] at h
                  obtain ⟨h1, h2, h3⟩ := h
                  subst h1
                  subst h2
                  subst h3
                  obtain ⟨hW, hA, hS, _⟩ := oeaBookkeeping_fields st m elem
                    step cmd extra st1 m1 xp hbk
                  refine ⟨st1, m1, xp, pr, rfl, rfl, hS, hW, ?_⟩
                  by_cases hc : useful = true ∧ newSt.stepCount < st.stepCount
                  · rw [if_pos hc]
                    rw [oeaLoopDetect, if_pos (by rw [hS]; exact hc)] at hld
                    simp only [Option.pure_def, Option.bind_eq_bind] at hld
                    cases hmax : maxDepthElement newSt.elementDepths with
                    | none =>
                        rw [hmax] at hld
                        simp only [Option.some_bind] at hld
                        cases haw : addElementWeight st1.elementWeights xp
                            Weight.EXIT_CIRCLE with
                        | none => rw [haw] at hld; simp at hld
                        | some ws2 =>
                            rw [haw] at hld
                            simp only [Option.some_bind, Option.some_inj,
                              Prod.mk.injEq] at hld
                            obtain ⟨hst2, hnew2⟩ := hld
                            subst hnew2
                            refine ⟨Or.inl ⟨rfl, rfl⟩, ws2, rfl, ?_⟩
                            rw [hst2]
                            exact hgl
                    | some me =>
                        rw [hmax] at hld
                        simp only [Option.bind_eq_bind] at hld
                        cases hawE : addElementWeight newSt.elementWeights me
                            Weight.ENTER_CIRCLE with
                        | none => rw [hawE] at hld; simp at hld
                        | some ws =>
                            rw [hawE] at hld
                            simp only [Option.some_bind] at hld
                            cases haw : addElementWeight st1.elementWeights xp
                                Weight.EXIT_CIRCLE with
                            | none => rw [haw] at hld; simp at hld
                            | some ws2 =>
                                rw [haw] at hld
                                simp only [Option.some_bind, Option.some_inj,
                                  Prod.mk.injEq] at hld
                                obtain ⟨hst2, hnew2⟩ := hld
                                refine ⟨Or.inr ⟨me, ws, rfl, hawE, hnew2.symm⟩,
                                  ws2, rfl, ?_⟩
                                rw [hst2]
                                exact hgl
                  · rw [if_neg hc]
                    rw [oeaLoopDetect, if_neg (by rw [hS]; exact hc)] at hld
                    simp only [Option.pure_def, Option.some_inj,
                      Prod.mk.injEq] at hld
                    obtain ⟨hst2, hnew2⟩ := hld
                    subst hnew2
                    refine ⟨rfl, ?_⟩
                    rw [hst2]
                    exact hgl

theorem c7_loop_penalties_witness :
    ∃ st' newSt' m',
      onElementAction c1St c1NewSt c1Mgr c1Elem 7 "click" false [] =
        some (st', newSt', m') ∧
      ∃ st1 m1 xpath prompt,
        oeaBookkeeping c1St c1Mgr c1Elem 7 "click" [] = some (st1, m1, xpath) ∧
        c1Elem.getAttr "prompt" = some prompt ∧
        st1.stepCount = c1St.stepCount ∧
        st1.elementWeights = c1St.elementWeights ∧
        (if false = true ∧ c1NewSt.stepCount < c1St.stepCount then
          ((maxDepthElement c1NewSt.elementDepths = none ∧ newSt' = c1NewSt) ∨
           (∃ me ws, maxDepthElement c1NewSt.elementDepths = some me ∧
             addElementWeight c1NewSt.elementWeights me Weight.ENTER_CIRCLE =
               some ws ∧
             newSt' = { c1NewSt with elementWeights := ws })) ∧
          (∃ ws2, addElementWeight st1.elementWeights xpath
              Weight.EXIT_CIRCLE = some ws2 ∧
            oeaGroupLoop { st1 with elementWeights := ws2 } m1 prompt "click"
              false = some (st', m'))
        else
          newSt' = c1NewSt ∧
          oeaGroupLoop st1 m1 prompt "click" false = some (st', m')) := by
  cases hEq : onElementAction c1St c1NewSt c1Mgr c1Elem 7 "click" false [] with
  | none => exact absurd hEq (by decide)
  | some r =>
      obtain ⟨a, b, c⟩ := r
      exact ⟨a, b, c, rfl,
        c7_loop_penalties c1St c1NewSt c1Mgr c1Elem 7 "click" false [] a b c hEq⟩

end Chactivity
